import Mathlib

/-!
Verification of the Capstone2 trip-planner core (Planner/route_optimizer.py,
Planner/time_constraint.py, Planner/planner_service.py) against its
specification.  The Python code is shallowly embedded: dict-shaped records
become structures with `Option` fields, datetimes become minutes since the
midnight that starts the day being scheduled, floats become rationals, and
the transcendental great-circle distance (`RouteOptimizer._haversine`) is kept
abstract as a function parameter `hav`, since every verified property is
independent of the concrete distance values.
-/

namespace Capstone2

/-- Python `int()` on a non-negative float: truncation toward zero.  All call
sites in the embedded code apply it to non-negative rationals, where
truncation coincides with the floor. -/
def pyInt (q : ℚ) : Nat := q.floor.toNat

/-- Comparison of a distance against a running minimum that starts at
Python's `float('inf')` (modelled by `none`): anything is below infinity. -/
def ltOpt (x : ℚ) : Option ℚ → Bool
  | none => true
  | some d => decide (x < d)

/-! ## Route optimizer: 2-opt local search (`RouteOptimizer._two_opt`) -/

/-- Total distance of an index route through a distance matrix
(`RouteOptimizer._route_distance`). -/
def routeDistance (m : Nat → Nat → ℚ) : List Nat → ℚ
  | a :: b :: rest => m a b + routeDistance m (b :: rest)
  | _ => 0

/-- The 2-opt candidate move `best_route[:i] + best_route[i:j+1][::-1] +
best_route[j+1:]`. -/
def reverseSegment (r : List Nat) (i j : Nat) : List Nat :=
  r.take i ++ ((r.drop i).take (j + 1 - i)).reverse ++ r.drop (j + 1)

/-- Body of the doubly nested `for` loop of `_two_opt`: try one segment
reversal, keep it when it strictly shortens the tour.  The state is
`(best_route, best_distance, improved)`. -/
def twoOptStep (m : Nat → Nat → ℚ) (s : List Nat × ℚ × Bool) (p : Nat × Nat) :
    List Nat × ℚ × Bool :=
  let nr := reverseSegment s.1 p.1 p.2
  let nd := routeDistance m nr
  if nd < s.2.1 then (nr, nd, true) else s

/-- The `(i, j)` pairs visited by `for i in range(1, n-1): for j in
range(i+1, n)`. -/
def passPairs (n : Nat) : List (Nat × Nat) :=
  (List.range' 1 (n - 2)).flatMap
    (fun i => (List.range' (i + 1) (n - 1 - i)).map (fun j => (i, j)))

/-- One full pass of the `while improved` body of `_two_opt`, threading the
mutable `(best_route, best_distance, improved)` state through every pair. -/
def twoOptPass (m : Nat → Nat → ℚ) (r : List Nat) (d : ℚ) :
    List Nat × ℚ × Bool :=
  (passPairs r.length).foldl (twoOptStep m) (r, d, false)

lemma reverseSegment_perm (r : List Nat) (i j : Nat) (h : i ≤ j + 1) :
    (reverseSegment r i j).Perm r := by
  have h2 : (r.drop i).drop (j + 1 - i) = r.drop (j + 1) := by
    rw [List.drop_drop]
    congr 1
    omega
  have h1 : (r.drop i).take (j + 1 - i) ++ r.drop (j + 1) = r.drop i := by
    rw [← h2]
    exact List.take_append_drop _ _
  have hp : (reverseSegment r i j).Perm
      (r.take i ++ ((r.drop i).take (j + 1 - i) ++ r.drop (j + 1))) := by
    unfold reverseSegment
    rw [List.append_assoc]
    exact List.Perm.append_left _ (List.Perm.append_right _ (List.reverse_perm _))
  rw [h1] at hp
  calc (reverseSegment r i j).Perm (r.take i ++ r.drop i) := hp
    _ = r := List.take_append_drop _ _

lemma passPairs_le (n : Nat) : ∀ p ∈ passPairs n, p.1 ≤ p.2 + 1 := by
  intro p hp
  simp only [passPairs, List.mem_flatMap, List.mem_map, List.mem_range'_1] at hp
  obtain ⟨i, hi, j, hj, rfl⟩ := hp
  omega

/-- Fold invariant once an improvement has been found: the improved flag
stays set and the carried distance is the distance of the carried route. -/
lemma foldl_twoOptStep_true (m : Nat → Nat → ℚ) :
    ∀ (l : List (Nat × Nat)) (s : List Nat × ℚ × Bool),
      (∀ p ∈ l, p.1 ≤ p.2 + 1) →
      s.2.2 = true → s.2.1 = routeDistance m s.1 →
      (l.foldl (twoOptStep m) s).1.Perm s.1 ∧
      (l.foldl (twoOptStep m) s).2.1 ≤ s.2.1 ∧
      (l.foldl (twoOptStep m) s).2.2 = true ∧
      (l.foldl (twoOptStep m) s).2.1 = routeDistance m (l.foldl (twoOptStep m) s).1 := by
  intro l
  induction l with
  | nil =>
    intro s _ hs hinv
    exact ⟨List.Perm.refl _, le_refl _, hs, hinv⟩
  | cons hd tl ih =>
    intro s hl hs hinv
    rw [List.foldl_cons]
    by_cases hc : routeDistance m (reverseSegment s.1 hd.1 hd.2) < s.2.1
    · have hstep : twoOptStep m s hd =
          (reverseSegment s.1 hd.1 hd.2, routeDistance m (reverseSegment s.1 hd.1 hd.2), true) := by
        simp [twoOptStep, hc]
      rw [hstep]
      have ih' := ih (reverseSegment s.1 hd.1 hd.2, routeDistance m (reverseSegment s.1 hd.1 hd.2), true)
        (fun p hp => hl p (List.mem_cons_of_mem _ hp)) rfl rfl
      refine ⟨ih'.1.trans (reverseSegment_perm s.1 hd.1 hd.2 (hl hd (List.mem_cons_self _ _))),
        le_trans ih'.2.1 (le_of_lt hc), ih'.2.2.1, ih'.2.2.2⟩
    · have hstep : twoOptStep m s hd = s := by
        simp [twoOptStep, hc]
      rw [hstep]
      exact ih s (fun p hp => hl p (List.mem_cons_of_mem _ hp)) hs hinv

/-- Fold invariant from an un-improved state: the route stays a permutation,
the distance never increases, no improvement means nothing changed, and an
improvement means the distance strictly dropped and equals the distance of
the final route. -/
lemma foldl_twoOptStep_inv (m : Nat → Nat → ℚ) :
    ∀ (l : List (Nat × Nat)) (r : List Nat) (d : ℚ),
      (∀ p ∈ l, p.1 ≤ p.2 + 1) →
      (l.foldl (twoOptStep m) (r, d, false)).1.Perm r ∧
      (l.foldl (twoOptStep m) (r, d, false)).2.1 ≤ d ∧
      ((l.foldl (twoOptStep m) (r, d, false)).2.2 = false →
        (l.foldl (twoOptStep m) (r, d, false)).1 = r ∧
        (l.foldl (twoOptStep m) (r, d, false)).2.1 = d) ∧
      ((l.foldl (twoOptStep m) (r, d, false)).2.2 = true →
        (l.foldl (twoOptStep m) (r, d, false)).2.1 < d ∧
        (l.foldl (twoOptStep m) (r, d, false)).2.1 =
          routeDistance m (l.foldl (twoOptStep m) (r, d, false)).1) := by
  intro l
  induction l with
  | nil =>
    intro r d _
    exact ⟨List.Perm.refl _, le_refl _, fun _ => ⟨rfl, rfl⟩, fun h => by simp at h⟩
  | cons hd tl ih =>
    intro r d hl
    rw [List.foldl_cons]
    by_cases hc : routeDistance m (reverseSegment r hd.1 hd.2) < d
    · have hstep : twoOptStep m (r, d, false) hd =
          (reverseSegment r hd.1 hd.2, routeDistance m (reverseSegment r hd.1 hd.2), true) := by
        simp [twoOptStep, hc]
      rw [hstep]
      have h' := foldl_twoOptStep_true m tl
        (reverseSegment r hd.1 hd.2, routeDistance m (reverseSegment r hd.1 hd.2), true)
        (fun p hp => hl p (List.mem_cons_of_mem _ hp)) rfl rfl
      refine ⟨h'.1.trans (reverseSegment_perm r hd.1 hd.2 (hl hd (List.mem_cons_self _ _))),
        le_trans h'.2.1 (le_of_lt hc), ?_, ?_⟩
      · intro hfalse
        rw [h'.2.2.1] at hfalse
        simp at hfalse
      · intro _
        exact ⟨lt_of_le_of_lt h'.2.1 hc, h'.2.2.2⟩
    · have hstep : twoOptStep m (r, d, false) hd = (r, d, false) := by
        simp [twoOptStep, hc]
      rw [hstep]
      exact ih r d (fun p hp => hl p (List.mem_cons_of_mem _ hp))

lemma twoOptPass_perm (m : Nat → Nat → ℚ) (r : List Nat) (d : ℚ) :
    (twoOptPass m r d).1.Perm r :=
  (foldl_twoOptStep_inv m (passPairs r.length) r d (passPairs_le _)).1

lemma twoOptPass_le (m : Nat → Nat → ℚ) (r : List Nat) (d : ℚ) :
    (twoOptPass m r d).2.1 ≤ d :=
  (foldl_twoOptStep_inv m (passPairs r.length) r d (passPairs_le _)).2.1

lemma twoOptPass_false (m : Nat → Nat → ℚ) (r : List Nat) (d : ℚ)
    (h : (twoOptPass m r d).2.2 = false) :
    (twoOptPass m r d).1 = r ∧ (twoOptPass m r d).2.1 = d :=
  (foldl_twoOptStep_inv m (passPairs r.length) r d (passPairs_le _)).2.2.1 h

lemma twoOptPass_true (m : Nat → Nat → ℚ) (r : List Nat) (d : ℚ)
    (h : (twoOptPass m r d).2.2 = true) :
    (twoOptPass m r d).2.1 < d ∧
      (twoOptPass m r d).2.1 = routeDistance m (twoOptPass m r d).1 :=
  (foldl_twoOptStep_inv m (passPairs r.length) r d (passPairs_le _)).2.2.2 h

lemma countP_lt_of_mem {α : Type} (l : List α) (p q : α → Bool)
    (hpq : ∀ a ∈ l, p a = true → q a = true) (a : α) (ha : a ∈ l)
    (hqa : q a = true) (hpa : p a = false) : l.countP p < l.countP q := by
  induction l with
  | nil => simp at ha
  | cons b t ih =>
    rw [List.countP_cons, List.countP_cons]
    rcases List.mem_cons.mp ha with hab | hat
    · subst hab
      have hle : t.countP p ≤ t.countP q :=
        List.countP_mono_left (fun x hx => hpq x (List.mem_cons_of_mem _ hx))
      rw [hpa, hqa]
      simp
      omega
    · have := ih (fun x hx => hpq x (List.mem_cons_of_mem _ hx)) hat
      have hbq : (if p b = true then 1 else 0) ≤ (if q b = true then 1 else 0) := by
        by_cases hb : p b = true
        · rw [hb, hpq b (List.mem_cons_self _ _) hb]
        · simp [hb]
      omega

/-- The termination measure of the `while improved` loop: the number of
permutations of the current route strictly shorter than the carried best
distance.  A successful pass strictly shrinks it. -/
lemma twoOptPass_measure (m : Nat → Nat → ℚ) (r : List Nat) (d : ℚ)
    (h : (twoOptPass m r d).2.2 = true) :
    (twoOptPass m r d).1.permutations.countP
        (fun p => decide (routeDistance m p < (twoOptPass m r d).2.1)) <
      r.permutations.countP (fun p => decide (routeDistance m p < d)) := by
  have hperm := twoOptPass_perm m r d
  have htrue := twoOptPass_true m r d h
  have hcount : (twoOptPass m r d).1.permutations.countP
      (fun p => decide (routeDistance m p < (twoOptPass m r d).2.1)) =
      r.permutations.countP
        (fun p => decide (routeDistance m p < (twoOptPass m r d).2.1)) :=
    List.Perm.countP_eq _ (List.Perm.permutations hperm)
  rw [hcount]
  refine countP_lt_of_mem _ _ _ ?_ (twoOptPass m r d).1 ?_ ?_ ?_
  · intro a _ hpa
    have : routeDistance m a < (twoOptPass m r d).2.1 := of_decide_eq_true hpa
    exact decide_eq_true (lt_trans this htrue.1)
  · exact List.mem_permutations.mpr hperm
  · exact decide_eq_true (by rw [← htrue.2]; exact htrue.1)
  · apply decide_eq_false
    rw [← htrue.2]
    exact lt_irrefl _

/-- The `while improved` loop of `_two_opt`. -/
def twoOptLoop (m : Nat → Nat → ℚ) (r : List Nat) (d : ℚ) : List Nat :=
  if h : (twoOptPass m r d).2.2 = true then
    twoOptLoop m (twoOptPass m r d).1 (twoOptPass m r d).2.1
  else (twoOptPass m r d).1
termination_by r.permutations.countP (fun p => decide (routeDistance m p < d))
decreasing_by exact twoOptPass_measure m r d h

/-- `RouteOptimizer._two_opt`. -/
def twoOpt (m : Nat → Nat → ℚ) (route : List Nat) : List Nat :=
  twoOptLoop m route (routeDistance m route)

lemma twoOptLoop_le (m : Nat → Nat → ℚ) (r : List Nat) (d : ℚ) :
    d = routeDistance m r → routeDistance m (twoOptLoop m r d) ≤ d := by
  induction r, d using twoOptLoop.induct m with
  | case1 r d h ih =>
    intro hd
    rw [twoOptLoop, dif_pos h]
    have htrue := twoOptPass_true m r d h
    exact le_of_lt (lt_of_le_of_lt (ih htrue.2) htrue.1)
  | case2 r d h =>
    intro hd
    rw [twoOptLoop, dif_neg h]
    have hfalse := twoOptPass_false m r d (Bool.eq_false_iff.mpr h ▸ rfl)
    rw [hfalse.1, ← hd]

lemma twoOptLoop_perm (m : Nat → Nat → ℚ) (r : List Nat) (d : ℚ) :
    (twoOptLoop m r d).Perm r := by
  induction r, d using twoOptLoop.induct m with
  | case1 r d h ih =>
    rw [twoOptLoop, dif_pos h]
    exact ih.trans (twoOptPass_perm m r d)
  | case2 r d h =>
    rw [twoOptLoop, dif_neg h]
    exact twoOptPass_perm m r d

lemma twoOpt_perm (m : Nat → Nat → ℚ) (r : List Nat) : (twoOpt m r).Perm r :=
  twoOptLoop_perm m r (routeDistance m r)

lemma twoOptLoop_fixed (m : Nat → Nat → ℚ) (r : List Nat) (d : ℚ) :
    d = routeDistance m r →
    twoOptPass m (twoOptLoop m r d) (routeDistance m (twoOptLoop m r d)) =
      (twoOptLoop m r d, routeDistance m (twoOptLoop m r d), false) := by
  induction r, d using twoOptLoop.induct m with
  | case1 r d h ih =>
    intro _
    rw [twoOptLoop, dif_pos h]
    exact ih (twoOptPass_true m r d h).2
  | case2 r d h =>
    intro hd
    have hb : (twoOptPass m r d).2.2 = false := by
      cases hx : (twoOptPass m r d).2.2
      · rfl
      · exact absurd hx h
    have hfalse := twoOptPass_false m r d hb
    rw [twoOptLoop, dif_neg h]
    rw [hfalse.1, ← hd]
    have : twoOptPass m r d = (r, d, false) := by
      rcases hs : twoOptPass m r d with ⟨a, b, c⟩
      rw [hs] at hfalse hb
      simp at hfalse hb
      simp [hfalse.1, hfalse.2, hb]
    rw [this]

/-- C3: the 2-opt local search never lengthens the tour. -/
theorem c3_two_opt_shortens (m : Nat → Nat → ℚ) (r : List Nat)
    (hlen : 2 < r.length) (hsym : ∀ i j, m i j = m j i) :
    routeDistance m (twoOpt m r) ≤ routeDistance m r :=
  twoOptLoop_le m r (routeDistance m r) rfl

theorem c3_two_opt_shortens_witness :
    2 < ([0, 1, 2, 3] : List Nat).length ∧
      routeDistance (fun i j => (i : ℚ) + j) (twoOpt (fun i j => (i : ℚ) + j) [0, 1, 2, 3]) ≤
        routeDistance (fun i j => (i : ℚ) + j) [0, 1, 2, 3] :=
  ⟨by decide, c3_two_opt_shortens (fun i j => (i : ℚ) + j) [0, 1, 2, 3] (by decide)
    (fun i j => by push_cast; ring)⟩

/-- C4: _two_opt reaches a fixed point: applying it twice equals applying it
once. -/
theorem c4_two_opt_idempotent (m : Nat → Nat → ℚ) (route : List Nat) :
    twoOpt m (twoOpt m route) = twoOpt m route := by
  unfold twoOpt
  have hfix := twoOptLoop_fixed m route (routeDistance m route) rfl
  rw [twoOptLoop, dif_neg (by rw [hfix]; simp)]
  rw [hfix]

/-! ## The dict-shaped place record flowing through the pipeline -/

/-- The untyped place dict that the planner pipeline threads through the
route optimizer and the time-constraint scheduler.  Keys that a stage may
leave absent are `Option`s; `latitude`/`longitude` are always present once a
place reaches the optimizer. -/
structure Place where
  placeId : Nat
  name : Option String
  placeName : Option String
  address : Option String
  placeAddress : Option String
  category : Option String
  placeCategory : Option String
  tags : Option (List String)
  latitude : ℚ
  longitude : ℚ
  mustVisit : Bool
  isNightPlace : Bool
  closedDays : Option String
  operatingHours : Option String
  suggestedStayDuration : Option ℚ
  travelTimeFromPrev : Option Nat
  transportMode : Option String
  orderIndex : Option Nat
  dayNumber : Option Nat
  selectionReason : Option String
deriving DecidableEq, Inhabited

/-- A place dict with every optional key absent, for building test inputs. -/
def basePlace : Place :=
  { placeId := 0, name := none, placeName := none, address := none,
    placeAddress := none, category := none, placeCategory := none,
    tags := none, latitude := 0, longitude := 0, mustVisit := false,
    isNightPlace := false, closedDays := none, operatingHours := none,
    suggestedStayDuration := none, travelTimeFromPrev := none,
    transportMode := none, orderIndex := none, dayNumber := none,
    selectionReason := none }

/-- Forget the keys that `RouteOptimizer.optimize` writes
(`travel_time_from_prev`, `transport_mode`, `order_index`), keeping the
identity of the place. -/
def stripAnnotations (p : Place) : Place :=
  { p with travelTimeFromPrev := none, transportMode := none, orderIndex := none }

/-! ## Route optimizer: travel-time annotation and per-day optimization
(`RouteOptimizer.optimize`) -/

/-- A `{'lat':…, 'latitude':…}`-shaped anchor dict
(`start_location` / `end_location`). -/
structure GeoLoc where
  lat : Option ℚ
  latitude : Option ℚ
  lng : Option ℚ
  longitude : Option ℚ
deriving DecidableEq

/-- Python `a or b` on two optional floats: `None` and `0` are falsy. -/
def pyOrQ (a b : Option ℚ) : Option ℚ :=
  match a with
  | some x => if x = 0 then b else some x
  | none => b

/-- `if start_location and (start_location.get('lat') or
start_location.get('latitude')): …` and the tuple it builds. -/
def resolveGeo (g : Option GeoLoc) : Option (ℚ × ℚ) :=
  match g with
  | none => none
  | some gl =>
    match pyOrQ gl.lat gl.latitude with
    | none => none
    | some la => if la = 0 then none else some (la, (pyOrQ gl.lng gl.longitude).getD 0)

/-- `RouteOptimizer._add_travel_times` on one non-first place: ask the
routing collaborator (`get_route_info`, modelled as `oracle` returning
`(duration_seconds, distance_meters)`), fall back to the deterministic
haversine rule when the duration is not positive. -/
def annotateTravel (oracle : ℚ → ℚ → ℚ → ℚ → ℚ × ℚ) (hav : ℚ → ℚ → ℚ → ℚ → ℚ)
    (prev p : Place) : Place :=
  let info := oracle prev.longitude prev.latitude p.longitude p.latitude
  let tm : Nat × String :=
    if 0 < info.1 then
      let travelTime := max (pyInt (info.1 / 60)) 1
      let distKm := info.2 / 1000
      (travelTime,
        if distKm < 1/2 then "walk" else if distKm < 5 then "public_transit" else "car")
    else
      let distKm := hav prev.latitude prev.longitude p.latitude p.longitude
      if distKm < 1/2 then (max (pyInt (distKm * 1000 / 80)) 5, "walk")
      else if distKm < 5 then (pyInt (distKm / 20 * 60) + 5, "public_transit")
      else (pyInt (distKm / 30 * 60) + 10, "car")
  { p with travelTimeFromPrev := some (max tm.1 5), transportMode := some tm.2 }

/-- The `for i, place in enumerate(places)` loop of `_add_travel_times`,
with the previously processed place threaded through. -/
def addTravelTimesGo (oracle : ℚ → ℚ → ℚ → ℚ → ℚ × ℚ) (hav : ℚ → ℚ → ℚ → ℚ → ℚ)
    (prev : Option Place) : List Place → List Place
  | [] => []
  | p :: rest =>
    match prev with
    | none =>
      { p with travelTimeFromPrev := none, transportMode := none } ::
        addTravelTimesGo oracle hav
          (some { p with travelTimeFromPrev := none, transportMode := none }) rest
    | some q =>
      annotateTravel oracle hav q p ::
        addTravelTimesGo oracle hav (some (annotateTravel oracle hav q p)) rest

/-- `RouteOptimizer._add_travel_times`. -/
def addTravelTimes (oracle : ℚ → ℚ → ℚ → ℚ → ℚ × ℚ) (hav : ℚ → ℚ → ℚ → ℚ → ℚ)
    (places : List Place) : List Place :=
  addTravelTimesGo oracle hav none places

/-- `for idx, place in enumerate(…): place['order_index'] = idx + 1`,
started at `k = 1`. -/
def assignPlaceOrder (k : Nat) : List Place → List Place
  | [] => []
  | p :: rest => { p with orderIndex := some k } :: assignPlaceOrder (k + 1) rest

/-- `RouteOptimizer._build_distance_matrix`: zero diagonal, one haversine
evaluation mirrored onto both triangles. -/
def buildDistanceMatrix (hav : ℚ → ℚ → ℚ → ℚ → ℚ) (places : List Place) :
    Nat → Nat → ℚ :=
  fun i j =>
    if i = j then 0
    else
      let a := places.getD (min i j) default
      let b := places.getD (max i j) default
      hav a.latitude a.longitude b.latitude b.longitude

/-- The scan for the place nearest to the start anchor
(`for i, place in enumerate(places)` in `_nearest_neighbor`). -/
def findStartGo (hav : ℚ → ℚ → ℚ → ℚ → ℚ) (s : ℚ × ℚ) (idx best : Nat)
    (bestD : Option ℚ) : List Place → Nat
  | [] => best
  | p :: rest =>
    let d := hav s.1 s.2 p.latitude p.longitude
    if ltOpt d bestD then findStartGo hav s (idx + 1) idx (some d) rest
    else findStartGo hav s (idx + 1) best bestD rest

/-- Start index of the nearest-neighbor construction
(`min_dist = float('inf'); start_idx = 0; …`). -/
def findStartIdx (hav : ℚ → ℚ → ℚ → ℚ → ℚ) (s : ℚ × ℚ) (places : List Place) : Nat :=
  findStartGo hav s 0 0 none places

/-- The inner `for j in range(n)` scan for the nearest unvisited place;
`(none, none)` models `nearest = -1; min_dist = float('inf')`. -/
def findNearest (m : Nat → Nat → ℚ) (visited : Nat → Bool) (cur : Nat) :
    List Nat → Option Nat × Option ℚ → Option Nat × Option ℚ
  | [], acc => acc
  | j :: rest, acc =>
    if visited j = false ∧ ltOpt (m cur j) acc.2 = true then
      findNearest m visited cur rest (some j, some (m cur j))
    else findNearest m visited cur rest acc

/-- One iteration of the `for _ in range(n-1)` loop of `_nearest_neighbor`:
extend the route by the nearest unvisited place, if one was found. -/
def nnStep (m : Nat → Nat → ℚ) (n : Nat) (st : List Nat × (Nat → Bool)) :
    List Nat × (Nat → Bool) :=
  let current := st.1.getLastD 0
  match (findNearest m st.2 current (List.range n) (none, none)).1 with
  | some j => (st.1 ++ [j], fun k => if k = j then true else st.2 k)
  | none => st

/-- The `for _ in range(n-1)` loop. -/
def nnIter (m : Nat → Nat → ℚ) (n : Nat) : Nat → (List Nat × (Nat → Bool)) → List Nat × (Nat → Bool)
  | 0, st => st
  | k + 1, st => nnIter m n k (nnStep m n st)

/-- `RouteOptimizer._nearest_neighbor`.  The `visited` array is modelled as
a function `Nat → Bool`. -/
def nearestNeighbor (m : Nat → Nat → ℚ) (hav : ℚ → ℚ → ℚ → ℚ → ℚ) (s : ℚ × ℚ)
    (places : List Place) : List Nat :=
  let n := places.length
  let startIdx := findStartIdx hav s places
  (nnIter m n (n - 1) ([startIdx], fun k => decide (k = startIdx))).1

/-- Haversine tour length over actual places
(`RouteOptimizer._route_distance_with_endpoints`, middle part). -/
def placesRouteDistance (hav : ℚ → ℚ → ℚ → ℚ → ℚ) (places : List Place) : List Nat → ℚ
  | a :: b :: rest =>
    hav (places.getD a default).latitude (places.getD a default).longitude
        (places.getD b default).latitude (places.getD b default).longitude
      + placesRouteDistance hav places (b :: rest)
  | _ => 0

/-- `RouteOptimizer._route_distance_with_endpoints`. -/
def routeDistanceWithEndpoints (hav : ℚ → ℚ → ℚ → ℚ → ℚ) (route : List Nat)
    (places : List Place) (startPt endPt : Option (ℚ × ℚ)) : ℚ :=
  (match startPt, route with
   | some s, a :: _ =>
     hav s.1 s.2 (places.getD a default).latitude (places.getD a default).longitude
   | _, _ => 0)
  + placesRouteDistance hav places route
  + (match endPt, route.getLast? with
     | some e, some b =>
       hav (places.getD b default).latitude (places.getD b default).longitude e.1 e.2
     | _, _ => 0)

/-- Body of the `for i in range(max(0, len(route)-3), len(route)-1)` loop of
`_optimize_for_end_location`; every candidate reroute is built from the
original `route`, exactly as in the source. -/
def optimizeForEndStep (hav : ℚ → ℚ → ℚ → ℚ → ℚ) (route : List Nat)
    (places : List Place) (endPt : ℚ × ℚ) (s : List Nat × ℚ) (i : Nat) :
    List Nat × ℚ :=
  let cand := places.getD (route.getD i 0) default
  let dist := hav cand.latitude cand.longitude endPt.1 endPt.2
  if dist < s.2 then
    if routeDistanceWithEndpoints hav (route.take i ++ route.drop (i + 1) ++ [route.getD i 0])
          places none (some endPt) <
        routeDistanceWithEndpoints hav route places none (some endPt) then
      (route.take i ++ route.drop (i + 1) ++ [route.getD i 0], dist)
    else s
  else s

/-- `RouteOptimizer._optimize_for_end_location`. -/
def optimizeForEnd (hav : ℚ → ℚ → ℚ → ℚ → ℚ) (route : List Nat)
    (places : List Place) (endPt : ℚ × ℚ) : List Nat :=
  if route.length < 2 then route
  else
    let lastP := places.getD (route.getLastD 0) default
    let lastDist := hav lastP.latitude lastP.longitude endPt.1 endPt.2
    ((List.range' (route.length - 3) (route.length - 1 - (route.length - 3))).foldl
      (optimizeForEndStep hav route places endPt) (route, lastDist)).1

/-- The start anchor of `_nearest_neighbor`: the request's start location if
truthy, otherwise the day's first listed place. -/
def startAnchor (startLoc : Option GeoLoc) (places : List Place) : ℚ × ℚ :=
  match resolveGeo startLoc with
  | some s => s
  | none => ((places.getD 0 default).latitude, (places.getD 0 default).longitude)

/-- The index route a >2-place day is reordered by: nearest neighbor, then
2-opt, then the optional end-anchor adjustment. -/
def optimizedRoute (hav : ℚ → ℚ → ℚ → ℚ → ℚ) (startLoc endLoc : Option GeoLoc)
    (places : List Place) : List Nat :=
  match resolveGeo endLoc with
  | some e =>
    optimizeForEnd hav
      (twoOpt (buildDistanceMatrix hav places)
        (nearestNeighbor (buildDistanceMatrix hav places) hav
          (startAnchor startLoc places) places)) places e
  | none =>
    twoOpt (buildDistanceMatrix hav places)
      (nearestNeighbor (buildDistanceMatrix hav places) hav
        (startAnchor startLoc places) places)

/-- The per-day body of `RouteOptimizer.optimize`. -/
def optimizeDay (oracle : ℚ → ℚ → ℚ → ℚ → ℚ × ℚ) (hav : ℚ → ℚ → ℚ → ℚ → ℚ)
    (startLoc endLoc : Option GeoLoc) (places : List Place) : List Place :=
  if places.length ≤ 2 then
    assignPlaceOrder 1 (addTravelTimes oracle hav places)
  else
    assignPlaceOrder 1 (addTravelTimes oracle hav
      ((optimizedRoute hav startLoc endLoc places).map (fun i => places.getD i default)))

/-- `RouteOptimizer.optimize` over the whole `places_by_day` dict, modelled
as an association list in iteration order. -/
def optimize (oracle : ℚ → ℚ → ℚ → ℚ → ℚ × ℚ) (hav : ℚ → ℚ → ℚ → ℚ → ℚ)
    (startLoc endLoc : Option GeoLoc) (daysPlaces : List (Nat × List Place)) :
    List (Nat × List Place) :=
  daysPlaces.map (fun e => (e.1, optimizeDay oracle hav startLoc endLoc e.2))

lemma stripAnnotations_annotateTravel (oracle : ℚ → ℚ → ℚ → ℚ → ℚ × ℚ)
    (hav : ℚ → ℚ → ℚ → ℚ → ℚ) (q p : Place) :
    stripAnnotations (annotateTravel oracle hav q p) = stripAnnotations p := rfl

lemma addTravelTimesGo_strip (oracle : ℚ → ℚ → ℚ → ℚ → ℚ × ℚ)
    (hav : ℚ → ℚ → ℚ → ℚ → ℚ) :
    ∀ (places : List Place) (prev : Option Place),
      (addTravelTimesGo oracle hav prev places).map stripAnnotations =
        places.map stripAnnotations := by
  intro places
  induction places with
  | nil => intro prev; rfl
  | cons p rest ih =>
    intro prev
    cases prev with
    | none => simp [addTravelTimesGo, ih, stripAnnotations]
    | some q => simp [addTravelTimesGo, ih, stripAnnotations_annotateTravel]

lemma assignPlaceOrder_strip :
    ∀ (l : List Place) (k : Nat),
      (assignPlaceOrder k l).map stripAnnotations = l.map stripAnnotations := by
  intro l
  induction l with
  | nil => intro k; rfl
  | cons p rest ih => intro k; simp [assignPlaceOrder, ih, stripAnnotations]

lemma assignPlaceOrder_orderIndex :
    ∀ (l : List Place) (k : Nat),
      (assignPlaceOrder k l).map (fun p => p.orderIndex) =
        (List.range' k l.length).map some := by
  intro l
  induction l with
  | nil => intro k; rfl
  | cons p rest ih => intro k; simp [assignPlaceOrder, List.range'_succ, ih]

lemma addTravelTimesGo_length (oracle : ℚ → ℚ → ℚ → ℚ → ℚ × ℚ)
    (hav : ℚ → ℚ → ℚ → ℚ → ℚ) :
    ∀ (places : List Place) (prev : Option Place),
      (addTravelTimesGo oracle hav prev places).length = places.length := by
  intro places
  induction places with
  | nil => intro prev; rfl
  | cons p rest ih =>
    intro prev
    cases prev with
    | none => simp [addTravelTimesGo, ih]
    | some q => simp [addTravelTimesGo, ih]

/-- C2: a day with at most two places is returned in input order, only
annotated with travel data and 1-based order indices. -/
theorem c2_small_day_no_reorder (oracle : ℚ → ℚ → ℚ → ℚ → ℚ × ℚ)
    (hav : ℚ → ℚ → ℚ → ℚ → ℚ) (startLoc endLoc : Option GeoLoc)
    (places : List Place) (h : places.length ≤ 2) :
    (optimizeDay oracle hav startLoc endLoc places).map stripAnnotations =
        places.map stripAnnotations ∧
      (optimizeDay oracle hav startLoc endLoc places).map (fun p => p.orderIndex) =
        (List.range' 1 places.length).map some := by
  rw [optimizeDay, if_pos h]
  constructor
  · rw [assignPlaceOrder_strip, addTravelTimes, addTravelTimesGo_strip]
  · rw [assignPlaceOrder_orderIndex, addTravelTimes, addTravelTimesGo_length]

theorem c2_small_day_no_reorder_witness :
    ([basePlace, { basePlace with placeId := 7 }] : List Place).length ≤ 2 ∧
      ((optimizeDay (fun _ _ _ _ => (0, 0)) (fun _ _ _ _ => 1) none none
          [basePlace, { basePlace with placeId := 7 }]).map stripAnnotations =
        ([basePlace, { basePlace with placeId := 7 }] : List Place).map stripAnnotations ∧
      (optimizeDay (fun _ _ _ _ => (0, 0)) (fun _ _ _ _ => 1) none none
          [basePlace, { basePlace with placeId := 7 }]).map (fun p => p.orderIndex) =
        (List.range' 1 2).map some) :=
  ⟨by decide,
    c2_small_day_no_reorder (fun _ _ _ _ => (0, 0)) (fun _ _ _ _ => 1) none none
      [basePlace, { basePlace with placeId := 7 }] (by decide)⟩

/-! ## C10: the optimizer permutes each day's places -/

lemma findStartGo_lt (hav : ℚ → ℚ → ℚ → ℚ → ℚ) (s : ℚ × ℚ) :
    ∀ (l : List Place) (idx best : Nat) (bestD : Option ℚ) (N : Nat),
      best < N → idx + l.length ≤ N → findStartGo hav s idx best bestD l < N := by
  intro l
  induction l with
  | nil =>
    intro idx best bestD N hb _
    exact hb
  | cons p rest ih =>
    intro idx best bestD N hb hlen
    rw [findStartGo]
    split
    · exact ih (idx + 1) idx _ N (by simp at hlen; omega) (by simp at hlen; omega)
    · exact ih (idx + 1) best bestD N hb (by simp at hlen; omega)

lemma findStartIdx_lt (hav : ℚ → ℚ → ℚ → ℚ → ℚ) (s : ℚ × ℚ) (places : List Place)
    (h : places ≠ []) : findStartIdx hav s places < places.length :=
  findStartGo_lt hav s places 0 0 none places.length
    (List.length_pos.mpr h) (by omega)

lemma findNearest_isSome_mono (m : Nat → Nat → ℚ) (v : Nat → Bool) (cur : Nat) :
    ∀ (l : List Nat) (acc : Option Nat × Option ℚ), acc.1.isSome = true →
      ((findNearest m v cur l acc).1).isSome = true := by
  intro l
  induction l with
  | nil => intro acc h; exact h
  | cons j rest ih =>
    intro acc h
    rw [findNearest]
    split
    · exact ih _ rfl
    · exact ih _ h

lemma findNearest_none (m : Nat → Nat → ℚ) (v : Nat → Bool) (cur : Nat) :
    ∀ (l : List Nat), (findNearest m v cur l (none, none)).1 = none →
      ∀ j ∈ l, v j = true := by
  intro l
  induction l with
  | nil => intro _ j hj; simp at hj
  | cons j rest ih =>
    intro hres k hk
    rw [findNearest] at hres
    split at hres
    · have := findNearest_isSome_mono m v cur rest (some j, some (m cur j)) rfl
      rw [hres] at this
      simp at this
    · rename_i hcond
      have hvj : v j = true := by
        by_contra hvj
        exact hcond ⟨Bool.eq_false_iff.mpr hvj ▸ rfl, by simp [ltOpt]⟩
      rcases List.mem_cons.mp hk with rfl | hk'
      · exact hvj
      · exact ih hres k hk'

lemma findNearest_some (m : Nat → Nat → ℚ) (v : Nat → Bool) (cur : Nat) :
    ∀ (l : List Nat) (acc : Option Nat × Option ℚ) (x : Nat),
      (findNearest m v cur l acc).1 = some x →
      acc.1 = some x ∨ (x ∈ l ∧ v x = false) := by
  intro l
  induction l with
  | nil => intro acc x h; exact Or.inl h
  | cons j rest ih =>
    intro acc x h
    rw [findNearest] at h
    split at h
    · rename_i hcond
      rcases ih _ x h with hacc | ⟨hmem, hvx⟩
      · simp only [Option.some.injEq] at hacc
        subst hacc
        exact Or.inr ⟨List.mem_cons_self _ _, hcond.1⟩
      · exact Or.inr ⟨List.mem_cons_of_mem _ hmem, hvx⟩
    · rcases ih _ x h with hacc | ⟨hmem, hvx⟩
      · exact Or.inl hacc
      · exact Or.inr ⟨List.mem_cons_of_mem _ hmem, hvx⟩

/-- Invariant of the nearest-neighbor construction: the route is a nonempty
duplicate-free list of indices below `n`, and the `visited` array is its
characteristic function. -/
def NNInv (n : Nat) (st : List Nat × (Nat → Bool)) : Prop :=
  st.1 ≠ [] ∧ st.1.Nodup ∧ (∀ x ∈ st.1, x < n) ∧ (∀ j, st.2 j = true ↔ j ∈ st.1)

lemma nnStep_inv (m : Nat → Nat → ℚ) (n : Nat) (st : List Nat × (Nat → Bool))
    (inv : NNInv n st) (hlt : st.1.length < n) :
    NNInv n (nnStep m n st) ∧ (nnStep m n st).1.length = st.1.length + 1 := by
  obtain ⟨hne, hnodup, hbound, hvis⟩ := inv
  have hex : ∃ j₀, j₀ < n ∧ st.2 j₀ = false := by
    by_contra hno
    push_neg at hno
    have hsub : List.range n ⊆ st.1 := by
      intro j hj
      have hjn := List.mem_range.mp hj
      have := hno j hjn
      cases hv : st.2 j
      · exact absurd hv this
      · exact (hvis j).mp hv
    have := List.Subperm.length_le ((List.nodup_range n).subperm hsub)
    simp at this
    omega
  obtain ⟨j₀, hj₀n, hj₀v⟩ := hex
  rw [nnStep]
  cases hres : (findNearest m st.2 (st.1.getLastD 0) (List.range n) (none, none)).1 with
  | none =>
    exfalso
    have := findNearest_none m st.2 (st.1.getLastD 0) (List.range n) hres j₀
      (List.mem_range.mpr hj₀n)
    rw [hj₀v] at this
    exact Bool.false_ne_true this
  | some j =>
    rcases findNearest_some m st.2 (st.1.getLastD 0) (List.range n) (none, none) j hres with
      hacc | ⟨hjmem, hjv⟩
    · simp at hacc
    have hjn : j < n := List.mem_range.mp hjmem
    have hjroute : j ∉ st.1 := by
      intro hmem
      rw [(hvis j).mpr hmem] at hjv
      exact absurd hjv (by decide)
    refine ⟨⟨by simp, ?_, ?_, ?_⟩, by simp⟩
    · rw [List.nodup_append]
      exact ⟨hnodup, List.nodup_singleton j,
        fun a ha hb => by rw [List.mem_singleton] at hb; exact hjroute (hb ▸ ha)⟩
    · intro x hx
      rcases List.mem_append.mp hx with hx' | hx'
      · exact hbound x hx'
      · rw [List.mem_singleton] at hx'
        exact hx' ▸ hjn
    · intro k
      show (if k = j then true else st.2 k) = true ↔ k ∈ st.1 ++ [j]
      by_cases hkj : k = j
      · subst hkj
        simp
      · rw [if_neg hkj, hvis k, List.mem_append, List.mem_singleton]
        exact ⟨Or.inl, fun h => h.resolve_right hkj⟩

lemma nnIter_inv (m : Nat → Nat → ℚ) (n : Nat) :
    ∀ (k : Nat) (st : List Nat × (Nat → Bool)), NNInv n st →
      st.1.length + k ≤ n →
      NNInv n (nnIter m n k st) ∧ (nnIter m n k st).1.length = st.1.length + k := by
  intro k
  induction k with
  | zero => intro st inv _; exact ⟨inv, rfl⟩
  | succ k ih =>
    intro st inv hlen
    have hstep := nnStep_inv m n st inv (by omega)
    have := ih (nnStep m n st) hstep.1 (by omega)
    rw [nnIter]
    exact ⟨this.1, by omega⟩

lemma nearestNeighbor_perm (m : Nat → Nat → ℚ) (hav : ℚ → ℚ → ℚ → ℚ → ℚ)
    (s : ℚ × ℚ) (places : List Place) (h : places ≠ []) :
    (nearestNeighbor m hav s places).Perm (List.range places.length) := by
  have hstart := findStartIdx_lt hav s places h
  have hinv : NNInv places.length
      ([findStartIdx hav s places], fun k => decide (k = findStartIdx hav s places)) := by
    refine ⟨by simp, List.nodup_singleton _, ?_, ?_⟩
    · intro x hx
      rw [List.mem_singleton] at hx
      exact hx ▸ hstart
    · intro j
      simp
  have hn : (1 : Nat) ≤ places.length := List.length_pos.mpr h
  have hiter := nnIter_inv m places.length (places.length - 1)
    ([findStartIdx hav s places], fun k => decide (k = findStartIdx hav s places))
    hinv (by simp; omega)
  set final := nnIter m places.length (places.length - 1)
    ([findStartIdx hav s places], fun k => decide (k = findStartIdx hav s places))
  obtain ⟨⟨_, hnodup, hbound, _⟩, hlen⟩ := hiter
  have hsub : final.1 ⊆ List.range places.length := by
    intro x hx
    exact List.mem_range.mpr (hbound x hx)
  have hsubperm := hnodup.subperm hsub
  obtain ⟨l', hl'p, hl's⟩ := hsubperm
  have hlenl' : l'.length = (List.range places.length).length := by
    rw [hl'p.length_eq, List.length_range]
    simp at hlen
    omega
  have : l' = List.range places.length := hl's.eq_of_length hlenl'
  rw [nearestNeighbor]
  exact ((this ▸ hl'p).symm : _)

lemma moveToEnd_perm (r : List Nat) (i : Nat) (h : i < r.length) :
    (r.take i ++ r.drop (i + 1) ++ [r.getD i 0]).Perm r := by
  conv_rhs => rw [← List.take_append_drop i r, ← List.getElem_cons_drop r i h]
  rw [List.getD_eq_getElem r 0 h, List.append_assoc]
  exact List.Perm.append_left _ (List.perm_append_singleton _ _)

lemma foldl_optimizeForEndStep_perm (hav : ℚ → ℚ → ℚ → ℚ → ℚ) (route : List Nat)
    (places : List Place) (endPt : ℚ × ℚ) :
    ∀ (l : List Nat) (st : List Nat × ℚ), st.1.Perm route →
      (∀ i ∈ l, i < route.length) →
      ((l.foldl (optimizeForEndStep hav route places endPt) st).1).Perm route := by
  intro l
  induction l with
  | nil => intro st hst _; exact hst
  | cons i rest ih =>
    intro st hst hl
    rw [List.foldl_cons]
    rw [optimizeForEndStep]
    split
    · split
      · exact ih _ (moveToEnd_perm route i (hl i (List.mem_cons_self _ _)))
          (fun x hx => hl x (List.mem_cons_of_mem _ hx))
      · exact ih _ hst (fun x hx => hl x (List.mem_cons_of_mem _ hx))
    · exact ih _ hst (fun x hx => hl x (List.mem_cons_of_mem _ hx))

lemma optimizeForEnd_perm (hav : ℚ → ℚ → ℚ → ℚ → ℚ) (route : List Nat)
    (places : List Place) (endPt : ℚ × ℚ) :
    (optimizeForEnd hav route places endPt).Perm route := by
  rw [optimizeForEnd]
  split
  · exact List.Perm.refl _
  · rename_i hlen
    apply foldl_optimizeForEndStep_perm hav route places endPt _ _ (List.Perm.refl _)
    intro i hi
    rw [List.mem_range'_1] at hi
    omega

lemma map_getD_range : ∀ (l : List Place),
    (List.range l.length).map (fun i => l.getD i default) = l := by
  intro l
  induction l with
  | nil => rfl
  | cons p rest ih =>
    rw [List.length_cons, List.range_succ_eq_map, List.map_cons, List.map_map,
      List.getD_cons_zero]
    congr 1

lemma optimizedRoute_perm (hav : ℚ → ℚ → ℚ → ℚ → ℚ) (startLoc endLoc : Option GeoLoc)
    (places : List Place) (h : places ≠ []) :
    (optimizedRoute hav startLoc endLoc places).Perm (List.range places.length) := by
  have hnn := nearestNeighbor_perm (buildDistanceMatrix hav places) hav
    (startAnchor startLoc places) places h
  have h2 := (twoOpt_perm (buildDistanceMatrix hav places)
    (nearestNeighbor (buildDistanceMatrix hav places) hav
      (startAnchor startLoc places) places)).trans hnn
  rw [optimizedRoute]
  cases resolveGeo endLoc with
  | none => exact h2
  | some e => exact (optimizeForEnd_perm hav _ places e).trans h2

/-- C10: for a non-empty day, the optimizer's output is a permutation of the
input places (identity taken modulo the travel/order annotations it writes). -/
theorem c10_optimize_day_permutes (oracle : ℚ → ℚ → ℚ → ℚ → ℚ × ℚ)
    (hav : ℚ → ℚ → ℚ → ℚ → ℚ) (startLoc endLoc : Option GeoLoc)
    (places : List Place) (h : places ≠ []) :
    ((optimizeDay oracle hav startLoc endLoc places).map stripAnnotations).Perm
      (places.map stripAnnotations) := by
  rw [optimizeDay]
  split
  · rw [assignPlaceOrder_strip, addTravelTimes, addTravelTimesGo_strip]
  · rw [assignPlaceOrder_strip, addTravelTimes, addTravelTimesGo_strip]
    have hperm : ((optimizedRoute hav startLoc endLoc places).map
        (fun i => places.getD i default)).Perm places := by
      have hr := optimizedRoute_perm hav startLoc endLoc places h
      have := hr.map (fun i => places.getD i default)
      rw [map_getD_range] at this
      exact this
    exact hperm.map stripAnnotations

theorem c10_optimize_day_permutes_witness :
    ([{ basePlace with placeId := 1 }, { basePlace with placeId := 2 },
        { basePlace with placeId := 3 }] : List Place) ≠ [] ∧
      ((optimizeDay (fun _ _ _ _ => (0, 0)) (fun a _ b _ => (a - b) * (a - b)) none none
          [{ basePlace with placeId := 1 }, { basePlace with placeId := 2 },
            { basePlace with placeId := 3 }]).map stripAnnotations).Perm
        (([{ basePlace with placeId := 1 }, { basePlace with placeId := 2 },
          { basePlace with placeId := 3 }] : List Place).map stripAnnotations) :=
  ⟨by decide,
    c10_optimize_day_permutes (fun _ _ _ _ => (0, 0)) (fun a _ b _ => (a - b) * (a - b))
      none none _ (by decide)⟩

/-! ## C9: `RouteOptimizer.calculate_optimization_score` -/

/-- Sum of consecutive haversine distances within one day
(the inner `for i in range(len(places) - 1)` loop). -/
def dayPairsDistance (hav : ℚ → ℚ → ℚ → ℚ → ℚ) : List Place → ℚ
  | a :: b :: rest =>
    hav a.latitude a.longitude b.latitude b.longitude + dayPairsDistance hav (b :: rest)
  | _ => 0

/-- `(total_distance, total_places)` accumulated over the days; days with
fewer than 2 places are skipped. -/
def calcTotals (hav : ℚ → ℚ → ℚ → ℚ → ℚ) (days : List (Nat × List Place)) : ℚ × Nat :=
  days.foldl
    (fun acc e =>
      if e.2.length < 2 then acc
      else (acc.1 + dayPairsDistance hav e.2, acc.2 + e.2.length))
    (0, 0)

/-- The local `avg_distance` of `calculate_optimization_score`:
`total_distance / (total_places - 1)`. -/
def avgInterStopDistance (hav : ℚ → ℚ → ℚ → ℚ → ℚ)
    (days : List (Nat × List Place)) : ℚ :=
  (calcTotals hav days).1 / (((calcTotals hav days).2 : ℚ) - 1)

/-- `RouteOptimizer.calculate_optimization_score`. -/
def calculateOptimizationScore (hav : ℚ → ℚ → ℚ → ℚ → ℚ)
    (days : List (Nat × List Place)) : ℚ :=
  if (calcTotals hav days).2 < 2 then 1
  else
    if avgInterStopDistance hav days ≤ 5 then 1
    else if 20 ≤ avgInterStopDistance hav days then 0
    else 1 - (avgInterStopDistance hav days - 5) / 15

/-- C9: the optimization score is the piecewise-linear image of the average
inter-stop distance: 1 below 5 km, 0 above 20 km, linear in between. -/
theorem c9_optimization_score_piecewise (hav : ℚ → ℚ → ℚ → ℚ → ℚ)
    (days : List (Nat × List Place)) (h : 2 ≤ (calcTotals hav days).2) :
    (avgInterStopDistance hav days ≤ 5 → calculateOptimizationScore hav days = 1) ∧
      (20 ≤ avgInterStopDistance hav days → calculateOptimizationScore hav days = 0) ∧
      (5 < avgInterStopDistance hav days → avgInterStopDistance hav days < 20 →
        calculateOptimizationScore hav days =
          1 - (avgInterStopDistance hav days - 5) / 15) := by
  have hnot : ¬ (calcTotals hav days).2 < 2 := by omega
  rw [calculateOptimizationScore]
  rw [if_neg hnot]
  refine ⟨?_, ?_, ?_⟩
  · intro h5
    rw [if_pos h5]
  · intro h20
    rw [if_neg (by intro hle; linarith), if_pos h20]
  · intro h5 h20
    rw [if_neg (by intro hle; linarith), if_neg (by intro hge; linarith)]

theorem c9_optimization_score_piecewise_witness :
    2 ≤ (calcTotals (fun _ _ _ _ => 3) [(1, [basePlace, basePlace])]).2 ∧
      calculateOptimizationScore (fun _ _ _ _ => 3) [(1, [basePlace, basePlace])] = 1 := by
  have htot : calcTotals (fun _ _ _ _ => (3 : ℚ)) [(1, [basePlace, basePlace])] = (3, 2) := by
    norm_num [calcTotals, dayPairsDistance]
  have havg : avgInterStopDistance (fun _ _ _ _ => (3 : ℚ)) [(1, [basePlace, basePlace])] = 3 := by
    rw [avgInterStopDistance, htot]
    norm_num
  refine ⟨by rw [htot], ?_⟩
  exact (c9_optimization_score_piecewise (fun _ _ _ _ => 3) [(1, [basePlace, basePlace])]
    (by rw [htot])).1 (by rw [havg]; norm_num)

/-! ## C8: the Draft Generator call and its retry policy
(`PlannerService._generate_with_gpt`) -/

/-- Outcome of one `asyncio.to_thread(_call_gpt)` call: either the external
call raises (transport-level failure) or it returns a response text. -/
inductive GptCallOutcome where
  | transportFail : GptCallOutcome
  | response (text : String) : GptCallOutcome
deriving DecidableEq

/-- Result of `_generate_with_gpt`: a parsed draft, a propagated transport
exception, or the final `ValueError` after the retries are exhausted. -/
inductive GptResult (β : Type) where
  | ok (draft : β)
  | transportError
  | parseError
deriving DecidableEq

/-- The `for attempt in range(3)` loop of `_generate_with_gpt`.  `call n` is
the outcome of the n-th external call, `parse` is
`_parse_gpt_response` (`none` models the caught `ValueError`).  Returns the
result together with the number of external calls made. -/
def gptLoop {β : Type} (call : Nat → GptCallOutcome) (parse : String → Option β) :
    Nat → Nat → GptResult β × Nat
  | 0, k => (.parseError, k)
  | fuel + 1, k =>
    match call k with
    | .transportFail => (.transportError, k + 1)
    | .response t =>
      match parse t with
      | some d => (.ok d, k + 1)
      | none => gptLoop call parse fuel (k + 1)

/-- `PlannerService._generate_with_gpt`. -/
def generateWithGpt {β : Type} (call : Nat → GptCallOutcome)
    (parse : String → Option β) : GptResult β × Nat :=
  gptLoop call parse 3 0

lemma gptLoop_spec {β : Type} (call : Nat → GptCallOutcome) (parse : String → Option β) :
    ∀ (fuel k : Nat),
      (gptLoop call parse fuel k).2 ≤ k + fuel ∧
      k ≤ (gptLoop call parse fuel k).2 ∧
      (∀ i, k ≤ i → i + 1 < (gptLoop call parse fuel k).2 →
        ∃ t, call i = .response t ∧ parse t = none) ∧
      ((gptLoop call parse fuel k).1 = .parseError →
        (gptLoop call parse fuel k).2 = k + fuel ∧
        ∀ i, k ≤ i → i < k + fuel → ∃ t, call i = .response t ∧ parse t = none) ∧
      ((gptLoop call parse fuel k).1 = .transportError →
        call ((gptLoop call parse fuel k).2 - 1) = .transportFail) ∧
      (∀ d, (gptLoop call parse fuel k).1 = .ok d →
        ∃ t, call ((gptLoop call parse fuel k).2 - 1) = .response t ∧ parse t = some d) := by
  intro fuel
  induction fuel with
  | zero =>
    intro k
    refine ⟨by simp [gptLoop], by simp [gptLoop], ?_, ?_, ?_, ?_⟩
    · intro i hk hi
      simp [gptLoop] at hi
      omega
    · intro _
      refine ⟨by simp [gptLoop], ?_⟩
      intro i hk hi
      omega
    · intro hres
      simp [gptLoop] at hres
    · intro d hres
      simp [gptLoop] at hres
  | succ fuel ih =>
    intro k
    cases hcall : call k with
    | transportFail =>
      have hgl : gptLoop call parse (fuel + 1) k = (.transportError, k + 1) := by
        rw [gptLoop, hcall]
      rw [hgl]
      refine ⟨by show k + 1 ≤ k + (fuel + 1); omega, by show k ≤ k + 1; omega,
        ?_, ?_, ?_, ?_⟩
      · intro i hk hi
        have hi' : i + 1 < k + 1 := hi
        omega
      · intro hres
        exact absurd hres (by simp)
      · intro _
        show call (k + 1 - 1) = GptCallOutcome.transportFail
        simpa using hcall
      · intro d hres
        exact absurd hres (by simp)
    | response t =>
      cases hparse : parse t with
      | some d =>
        have hgl : gptLoop call parse (fuel + 1) k = (.ok d, k + 1) := by
          rw [gptLoop, hcall]
          show (match parse t with
            | some d => (GptResult.ok d, k + 1)
            | none => gptLoop call parse fuel (k + 1)) = _
          rw [hparse]
        rw [hgl]
        refine ⟨by show k + 1 ≤ k + (fuel + 1); omega, by show k ≤ k + 1; omega,
          ?_, ?_, ?_, ?_⟩
        · intro i hk hi
          have hi' : i + 1 < k + 1 := hi
          omega
        · intro hres
          exact absurd hres (by simp)
        · intro hres
          exact absurd hres (by simp)
        · intro d' hres
          have hd' : d = d' := by simpa using hres
          refine ⟨t, ?_, by rw [hparse, hd']⟩
          show call (k + 1 - 1) = GptCallOutcome.response t
          simpa using hcall
      | none =>
        have hgl : gptLoop call parse (fuel + 1) k = gptLoop call parse fuel (k + 1) := by
          rw [gptLoop, hcall]
          show (match parse t with
            | some d => (GptResult.ok d, k + 1)
            | none => gptLoop call parse fuel (k + 1)) = _
          rw [hparse]
        rw [hgl]
        obtain ⟨ha, hb, hc, hd, he, hf⟩ := ih (k + 1)
        refine ⟨by omega, by omega, ?_, ?_, he, hf⟩
        · intro i hk hi
          rcases Nat.eq_or_lt_of_le hk with rfl | hk'
          · exact ⟨t, hcall, hparse⟩
          · exact hc i hk' hi
        · intro hres
          obtain ⟨hlen, hall⟩ := hd hres
          refine ⟨by omega, ?_⟩
          intro i hk hi
          rcases Nat.eq_or_lt_of_le hk with rfl | hk'
          · exact ⟨t, hcall, hparse⟩
          · exact hall i hk' (by omega)

/-- C8: the draft call makes at most 3 attempts; every retried attempt was a
parse failure (so a transport failure is never retried); the final
"unparseable" error happens only after 3 parse failures; and a transport
error is the outcome of the very last call made, which propagates at once. -/
theorem c8_gpt_retry_policy {β : Type} (call : Nat → GptCallOutcome)
    (parse : String → Option β) :
    (generateWithGpt call parse).2 ≤ 3 ∧
      (∀ i, i + 1 < (generateWithGpt call parse).2 →
        ∃ t, call i = .response t ∧ parse t = none) ∧
      ((generateWithGpt call parse).1 = .parseError →
        (generateWithGpt call parse).2 = 3 ∧
        ∀ i < 3, ∃ t, call i = .response t ∧ parse t = none) ∧
      ((generateWithGpt call parse).1 = .transportError →
        call ((generateWithGpt call parse).2 - 1) = .transportFail) := by
  obtain ⟨ha, hb, hc, hd, he, hf⟩ := gptLoop_spec call parse 3 0
  exact ⟨ha, fun i hi => hc i (Nat.zero_le i) hi,
    fun hres => ⟨(hd hres).1, fun i hi => (hd hres).2 i (Nat.zero_le i) hi⟩, he⟩

theorem c8_gpt_retry_policy_witness :
    (generateWithGpt (fun k => if k = 0 then .response "x" else .transportFail)
        (fun _ => (none : Option Nat))).2 ≤ 3 ∧
      (fun k => if k = 0 then GptCallOutcome.response "x" else .transportFail)
          ((generateWithGpt (fun k => if k = 0 then .response "x" else .transportFail)
            (fun _ => (none : Option Nat))).2 - 1) = .transportFail :=
  ⟨(c8_gpt_retry_policy (fun k => if k = 0 then .response "x" else .transportFail)
      (fun _ => (none : Option Nat))).1,
    (c8_gpt_retry_policy (fun k => if k = 0 then .response "x" else .transportFail)
      (fun _ => (none : Option Nat))).2.2.2 (by decide)⟩

/-! ## Time-Constraint Scheduler (`TimeConstraintService.apply_constraints`)

Datetimes are minutes counted from midnight of the calendar day being
scheduled (`datetime.combine(current_date, t)` becomes the plain
time-of-day in minutes); `.time()` becomes `% 1440`.  Dates are represented
by their weekday index (Monday = 0), the only thing `_is_closed` reads. -/

/-- Python `sub in s` on strings. -/
def strIn (sub s : String) : Bool :=
  s.toList.tails.any (fun t => sub.toList.isPrefixOf t)

/-- Python `s.lower()`, character by character (`Char.toLower` lowercases
the ASCII range and leaves Korean text unchanged, which covers every string
the scheduler compares). -/
def strLower (s : String) : String :=
  String.mk (s.toList.map Char.toLower)

/-- Python `s.split(sep)` for a one-character separator (the only kind the
scheduler splits on: `':'`, `'-'`, `'~'`). -/
def splitChar (c : Char) : List Char → List (List Char)
  | [] => [[]]
  | x :: xs =>
    if x = c then [] :: splitChar c xs
    else
      match splitChar c xs with
      | [] => [[x]]
      | g :: gs => (x :: g) :: gs

/-- The digit parse inside `strptime`: a non-empty all-digit string. -/
def digitsToNat : List Char → Option Nat
  | [] => none
  | l =>
    if l.all (fun c => c.isDigit) then
      some (l.foldl (fun acc c => acc * 10 + (c.toNat - 48)) 0)
    else none

/-- Python `a or b` where `a` is an optional string: `None` and `""` are
falsy. -/
def pyOrStrO (a : Option String) (b : String) : String :=
  match a with
  | some s => if s = "" then b else s
  | none => b

/-- Python `a or b` on two optional strings, keeping the option. -/
def pyOrStrOO (a b : Option String) : Option String :=
  match a with
  | some s => if s = "" then b else some s
  | none => b

/-- `TimeConstraintService.NIGHT_KEYWORDS`. -/
def nightKeywords : List String :=
  ["야경", "야간", "night", "루프탑", "야시장", "불꽃", "일몰", "노을"]

/-- `NON_NIGHT_CATEGORIES` from `apply_constraints`. -/
def nonNightCategories : List String :=
  ["체험", "박물관", "관광지", "맛집", "식당", "카페", "쇼핑", "전시"]

/-- `TimeConstraintService.DEFAULT_STAY_DURATION.get(category, 60)` (minutes). -/
def defaultStayDuration (category : Option String) : Nat :=
  match category with
  | some c =>
    (List.lookup c
      [("관광지", 90), ("카페", 45), ("맛집", 60), ("식당", 60), ("자연", 120),
       ("쇼핑", 60), ("체험", 90), ("박물관", 90), ("전시", 60), ("공원", 60)]).getD 60
  | none => 60

/-- `PACE_CONFIG[pace]['stay_multiplier']` with the `moderate` default.  The
rationals are given in normal form so that they evaluate by reduction. -/
def paceStayMultiplier (pace : String) : ℚ :=
  if pace = "relaxed" then ⟨13, 10, by norm_num, by norm_num⟩
  else if pace = "moderate" then 1
  else if pace = "packed" then ⟨4, 5, by norm_num, by norm_num⟩
  else 1

/-- `PACE_CONFIG[pace]['buffer_time']` with the `moderate` default. -/
def paceBufferTime (pace : String) : Nat :=
  if pace = "relaxed" then 30
  else if pace = "moderate" then 15
  else if pace = "packed" then 10
  else 15

/-- Python `int(g * m)` for rationals, computed on the unreduced fraction so
that it evaluates by kernel reduction.  Both factors are non-negative at
every call site, where truncation agrees with the floor. -/
def pyIntMul (g m : ℚ) : Nat :=
  ((g.num * m.num) / (g.den * m.den : Int)).toNat

/-- `_is_night` (the closure inside `apply_constraints`). -/
def isNight (p : Place) : Bool :=
  let category := (pyOrStrOO p.placeCategory p.category).getD ""
  if category ∈ nonNightCategories then false
  else
    let tags := p.tags.getD []
    let name := strLower (pyOrStrO p.placeName (p.name.getD ""))
    p.isNightPlace ||
      tags.any (fun t => nightKeywords.any (fun kw => strIn kw (strLower t))) ||
      nightKeywords.any (fun kw => strIn kw name)

/-- `_is_meal` (the closure inside `apply_constraints`). -/
def isMeal (p : Place) : Bool :=
  let cat := (pyOrStrOO p.placeCategory p.category).getD ""
  cat = "맛집" || cat = "식당"

/-- `strptime(part, "%H:%M").time()` in minutes: 1-2 digit hour below 24,
1-2 digit minute below 60. -/
def parseHM (l : List Char) : Option Nat :=
  match splitChar ':' l with
  | [h, m] =>
    match digitsToNat h, digitsToNat m with
    | some hv, some mv =>
      if h.length ≤ 2 ∧ m.length ≤ 2 ∧ hv ≤ 23 ∧ mv ≤ 59 then
        some (hv * 60 + mv)
      else none
    | _, _ => none
  | _ => none

/-- `TimeConstraintService._parse_operating_hours`. -/
def parseOperatingHours (hoursStr : Option String) : Option Nat × Option Nat :=
  match hoursStr with
  | none => (none, none)
  | some s =>
    if s = "" then (none, none)
    else
      let clean := s.toList.filter (fun c => c ≠ ' ')
      let sep : Option Char :=
        if clean.contains '-' then some '-'
        else if clean.contains '~' then some '~'
        else none
      match sep with
      | none => (none, none)
      | some sp =>
        match splitChar sp clean with
        | [a, b] =>
          match parseHM a, parseHM b with
          | some o, some c => (some o, some c)
          | _, _ => (none, none)
        | _ => (none, none)

/-- `TimeConstraintService._is_closed`; the date is its weekday (Mon = 0). -/
def isClosed (closedDays : Option String) (weekday : Nat) : Bool :=
  match closedDays with
  | none => false
  | some cd =>
    if cd = "" then false
    else
      let todayKr := (["월", "화", "수", "목", "금", "토", "일"].getD weekday "")
      let todayEn := (["mon", "tue", "wed", "thu", "fri", "sat", "sun"].getD weekday "")
      let closedLower := strLower cd
      if strIn todayKr cd || strIn (todayKr ++ "요일") cd then true
      else if strIn todayEn closedLower then true
      else if strIn ("매주 " ++ todayKr) cd then true
      else false

/-- The fields of `core.models.UserPreference` that `apply_constraints`
reads; times in minutes. -/
structure UserPref where
  preferredStartTime : Option Nat
  preferredEndTime : Option Nat
  travelPace : Option String
deriving DecidableEq

/-- A scheduled stop: the place dict after `apply_constraints` wrote
`suggested_arrival_time` (time-of-day), `suggested_stay_duration` and
`order_index` into it.  `rawArrival` and `arrivalAbs` record the arrival
datetime before and after the window adjustments (minutes from the day's
midnight), which the stored time-of-day is the `% 1440` image of. -/
structure Stop where
  place : Place
  rawArrival : Nat
  arrivalAbs : Nat
  suggestedArrivalTime : Nat
  suggestedStayDuration : Nat
  orderIndex : Nat
deriving DecidableEq

/-- The meal-window push (`맛집/식당: 점심 12:00 / 저녁 18:30`): returns the
adjusted `(arrival_time, current_time)`. -/
def mealAdjust (ct arrival0 : Nat) (p : Place) : Nat × Nat :=
  let cat := (pyOrStrOO p.placeCategory p.category).getD ""
  if cat = "맛집" ∨ cat = "식당" then
    let t := arrival0 % 1440
    if t < 720 then (720, max ct 720)
    else if 840 ≤ t ∧ t < 1110 then (1110, max ct 1110)
    else (arrival0, ct)
  else (arrival0, ct)

/-- The night-window push (`20:00 이전 도착 불가`). -/
def nightAdjust (st : Nat × Nat) (p : Place) : Nat × Nat :=
  if isNight p = true ∧ st.1 % 1440 < 1200 then (1200, max st.2 1200) else st

/-- Waiting for opening time (`영업 시작 시간까지 대기`). -/
def opensAdjust (arrival : Nat) (opens : Option Nat) : Nat :=
  match opens with
  | some o => if arrival % 1440 < o then o else arrival
  | none => arrival

def closedWarnText (dayNum : Nat) (placeName : String) : String :=
  toString dayNum ++ "일차: " ++ placeName ++ "은(는) 휴무일이지만 필수 방문 장소이므로 포함합니다"

def closesWarnText (dayNum : Nat) (placeName : String) : String :=
  toString dayNum ++ "일차: " ++ placeName ++ "은(는) 영업시간이 지났지만 필수 방문 장소이므로 포함합니다"

def endWarnText (dayNum : Nat) (placeName : String) : String :=
  toString dayNum ++ "일차: " ++ placeName ++ "은(는) 선호 종료 시간 이후 도착이지만 필수 방문 장소이므로 포함합니다"

def exceedWarnText (dayNum : Nat) (placeName : String) : String :=
  toString dayNum ++ "일차: " ++ placeName ++ " 방문이 선호 종료 시간을 초과합니다"

/-- The stay-duration rule: the draft generator's suggestion when it is a
truthy number within `[15, 300]`, else the category default, times the pace
multiplier, truncated to an integer. -/
def stayDuration (pace : String) (p : Place) : Nat :=
  match p.suggestedStayDuration with
  | some g =>
    if g ≠ 0 ∧ 15 ≤ g ∧ g ≤ 300 then pyIntMul g (paceStayMultiplier pace)
    else pyIntMul ((defaultStayDuration (pyOrStrOO p.placeCategory p.category) : ℚ))
      (paceStayMultiplier pace)
  | none =>
    pyIntMul ((defaultStayDuration (pyOrStrOO p.placeCategory p.category) : ℚ))
      (paceStayMultiplier pace)

/-- The body of the `for i, place in enumerate(places)` loop of
`apply_constraints` for one place: returns the updated `current_time`, the
scheduled stop (`none` when the place is dropped) and the warnings emitted.
The operating-hours pair is pure, so it is computed up front; the drop
decisions are taken in the source's order (closed day, then closing time,
then day end). -/
def schedulePlace (pace : String) (dayNum weekday dayEnd ct : Nat) (p : Place) :
    Nat × Option Stop × List String :=
  let placeName := pyOrStrO p.placeName (p.name.getD "알 수 없음")
  let arrival0 := ct + p.travelTimeFromPrev.getD 0
  let st2 := nightAdjust (mealAdjust ct arrival0 p) p
  let oc := parseOperatingHours p.operatingHours
  let arrival3 := opensAdjust st2.1 oc.1
  let closed := isClosed p.closedDays weekday
  let closesLate : Bool :=
    match oc.2 with
    | some closes => decide (closes ≤ arrival3 % 1440)
    | none => false
  if closed = true ∧ p.mustVisit = false then (st2.2, none, [])
  else
    let ws1 := if closed then [closedWarnText dayNum placeName] else []
    if closesLate = true ∧ p.mustVisit = false then (st2.2, none, ws1)
    else
      let ws2 := ws1 ++ (if closesLate then [closesWarnText dayNum placeName] else [])
      let stay := stayDuration pace p
      let finish := arrival3 + stay
      if dayEnd ≤ arrival3 ∧ p.mustVisit = false then (st2.2, none, ws2)
      else
        let ws3 := ws2 ++
          (if dayEnd ≤ arrival3 then [endWarnText dayNum placeName]
           else if dayEnd < finish then [exceedWarnText dayNum placeName]
           else [])
        (finish + paceBufferTime pace,
          some { place := p, rawArrival := arrival0, arrivalAbs := arrival3,
                 suggestedArrivalTime := arrival3 % 1440,
                 suggestedStayDuration := stay, orderIndex := 0 },
          ws3)

/-- The conjunction of the three drop conditions of the loop body, with the
arrival time adjusted exactly as the loop adjusts it: a closed day, an
arrival at or past closing time, or an arrival at or past day end. -/
def violatesConstraints (weekday dayEnd ct : Nat) (p : Place) : Bool :=
  let arrival0 := ct + p.travelTimeFromPrev.getD 0
  let st2 := nightAdjust (mealAdjust ct arrival0 p) p
  let oc := parseOperatingHours p.operatingHours
  let arrival3 := opensAdjust st2.1 oc.1
  isClosed p.closedDays weekday ||
    (match oc.2 with
     | some closes => decide (closes ≤ arrival3 % 1440)
     | none => false) ||
    decide (dayEnd ≤ arrival3)

/-- The meal/night re-sequencing that `apply_constraints` applies to a day
before the loop: first half of the others, lunch, second half, dinner, then
the night places; restaurants beyond the first two are discarded. -/
def restructureDay (places : List Place) : List Place :=
  let nightPlaces := places.filter (fun p => isNight p)
  let meals := places.filter (fun p => isMeal p && !isNight p)
  let others := places.filter (fun p => !isMeal p && !isNight p)
  let lunch := meals[0]?
  let dinner := meals[1]?
  let split := min (others.length / 2) 2
  others.take split ++ lunch.toList ++ others.drop split ++ dinner.toList ++ nightPlaces

/-- The `for i, place in enumerate(places)` loop threading `current_time`,
collecting the kept stops and the warnings in order. -/
def processPlaces (pace : String) (dayNum weekday dayEnd : Nat) :
    Nat → List Place → Nat × List Stop × List String
  | ct, [] => (ct, [], [])
  | ct, p :: rest =>
    let r := schedulePlace pace dayNum weekday dayEnd ct p
    let rest' := processPlaces pace dayNum weekday dayEnd r.1 rest
    (rest'.1, r.2.1.toList ++ rest'.2.1, r.2.2 ++ rest'.2.2)

/-- `for idx, place in enumerate(day_itineraries): place['order_index'] = idx + 1`. -/
def assignStopOrder (k : Nat) : List Stop → List Stop
  | [] => []
  | s :: rest => { s with orderIndex := k } :: assignStopOrder (k + 1) rest

/-- One day of `apply_constraints`: re-sequence, walk the loop from
`day_start`, then re-assign the order indices. -/
def processDay (pace : String) (dayNum weekday dayStart dayEnd : Nat)
    (places : List Place) : List Stop × List String :=
  let r := processPlaces pace dayNum weekday dayEnd dayStart (restructureDay places)
  (assignStopOrder 1 r.2.1, r.2.2)

/-- `day_start = preference.preferred_start_time or time(9, 0)`. -/
def applyDayStart (preference : Option UserPref) : Nat :=
  match preference with
  | some pr => pr.preferredStartTime.getD 540
  | none => 540

/-- `day_end = preference.preferred_end_time or time(23, 0)`. -/
def applyDayEnd (preference : Option UserPref) : Nat :=
  match preference with
  | some pr => pr.preferredEndTime.getD 1380
  | none => 1380

/-- `pace = preference.travel_pace or "moderate"`. -/
def applyPace (preference : Option UserPref) : String :=
  match preference with
  | some pr => pyOrStrO pr.travelPace "moderate"
  | none => "moderate"

/-- `TimeConstraintService.apply_constraints` over the `places_by_day` dict
(as an association list in iteration order); `startWeekday` is the weekday
of `start_date`. -/
def applyConstraints (preference : Option UserPref) (startWeekday : Nat)
    (daysPlaces : List (Nat × List Place)) : List (Nat × List Stop) × List String :=
  (daysPlaces.map (fun e =>
      (e.1, (processDay (applyPace preference) e.1 ((startWeekday + (e.1 - 1)) % 7)
        (applyDayStart preference) (applyDayEnd preference) e.2).1)),
    daysPlaces.flatMap (fun e =>
      (processDay (applyPace preference) e.1 ((startWeekday + (e.1 - 1)) % 7)
        (applyDayStart preference) (applyDayEnd preference) e.2).2))

/-! ## Step lemmas about `schedulePlace` -/

lemma mealAdjust_ct (ct a : Nat) (p : Place) : ct ≤ (mealAdjust ct a p).2 := by
  simp only [mealAdjust]
  split_ifs <;> first | omega | (dsimp only; omega)

lemma nightAdjust_ct (st : Nat × Nat) (p : Place) : st.2 ≤ (nightAdjust st p).2 := by
  simp only [nightAdjust]
  split_ifs <;> first | omega | (dsimp only; omega)

lemma mealAdjust_bounds (ct a : Nat) (p : Place) (h : a < 1440) :
    a ≤ (mealAdjust ct a p).1 ∧ (mealAdjust ct a p).1 < 1440 := by
  simp only [mealAdjust]
  rw [Nat.mod_eq_of_lt h]
  split_ifs <;> first | omega | (dsimp only; omega)

lemma nightAdjust_bounds (st : Nat × Nat) (p : Place) (h : st.1 < 1440) :
    st.1 ≤ (nightAdjust st p).1 ∧ (nightAdjust st p).1 < 1440 := by
  simp only [nightAdjust]
  rw [Nat.mod_eq_of_lt h]
  split_ifs <;> first | omega | (dsimp only; omega)

lemma parseHM_lt (l : List Char) (v : Nat) (h : parseHM l = some v) : v < 1440 := by
  rw [parseHM] at h
  split at h
  · split at h
    · split at h
      · rename_i hguard
        simp at h
        omega
      · simp at h
    · simp at h
  · simp at h

lemma parseOperatingHours_opens_lt (hs : Option String) (o : Nat)
    (h : (parseOperatingHours hs).1 = some o) : o < 1440 := by
  cases hs with
  | none => exact absurd h (by simp [parseOperatingHours])
  | some s =>
    simp only [parseOperatingHours.eq_def] at h
    split at h
    · exact absurd h (by simp)
    · split at h
      · exact absurd h (by simp)
      · split at h
        · split at h
          · rename_i hpa hpb
            simp only [Option.some.injEq] at h
            exact h ▸ parseHM_lt _ _ hpa
          · exact absurd h (by simp)
        · exact absurd h (by simp)

lemma opensAdjust_bounds (a : Nat) (opens : Option Nat) (h : a < 1440)
    (hb : ∀ o, opens = some o → o < 1440) :
    a ≤ opensAdjust a opens ∧ opensAdjust a opens < 1440 := by
  cases opens with
  | none => exact ⟨le_refl a, h⟩
  | some o =>
    have := hb o rfl
    show a ≤ (if a % 1440 < o then o else a) ∧ (if a % 1440 < o then o else a) < 1440
    rw [Nat.mod_eq_of_lt h]
    split_ifs <;> omega

lemma isNight_not_mealCat (p : Place) (h : isNight p = true) :
    ¬ ((pyOrStrOO p.placeCategory p.category).getD "" = "맛집" ∨
      (pyOrStrOO p.placeCategory p.category).getD "" = "식당") := by
  intro hcat
  rw [isNight] at h
  have hmem : (pyOrStrOO p.placeCategory p.category).getD "" ∈ nonNightCategories := by
    rcases hcat with hc | hc <;> rw [hc] <;> simp [nonNightCategories]
  rw [if_pos hmem] at h
  exact Bool.false_ne_true h

lemma mealAdjust_of_night (ct a : Nat) (p : Place) (h : isNight p = true) :
    mealAdjust ct a p = (a, ct) := by
  rw [mealAdjust, if_neg (isNight_not_mealCat p h)]

lemma nightAdjust_stored (st : Nat × Nat) (p : Place) (h : isNight p = true) :
    1200 ≤ (nightAdjust st p).1 % 1440 := by
  rw [nightAdjust]
  split_ifs with hc
  · dsimp only
    omega
  · rw [Classical.not_and_iff_or_not_not] at hc
    rcases hc with hc | hc
    · exact absurd h hc
    · omega

lemma opensAdjust_stored (a : Nat) (opens : Option Nat)
    (hb : ∀ o, opens = some o → o < 1440) (h : 1200 ≤ a % 1440) :
    1200 ≤ opensAdjust a opens % 1440 := by
  cases opens with
  | none => exact h
  | some o =>
    have := hb o rfl
    show 1200 ≤ (if a % 1440 < o then o else a) % 1440
    split_ifs with hlt
    · omega
    · exact h

lemma schedulePlace_none_ct (pace : String) (dayNum weekday dayEnd ct : Nat) (p : Place)
    (h : (schedulePlace pace dayNum weekday dayEnd ct p).2.1 = none) :
    ct ≤ (schedulePlace pace dayNum weekday dayEnd ct p).1 := by
  have hct : ct ≤ (nightAdjust (mealAdjust ct (ct + p.travelTimeFromPrev.getD 0) p) p).2 :=
    le_trans (mealAdjust_ct ct _ p) (nightAdjust_ct _ p)
  simp only [schedulePlace] at h ⊢
  split_ifs at h ⊢ <;> first | exact hct | simp at h

lemma schedulePlace_some_fields (pace : String) (dayNum weekday dayEnd ct : Nat)
    (p : Place) (s : Stop)
    (h : (schedulePlace pace dayNum weekday dayEnd ct p).2.1 = some s) :
    s.place = p ∧
    s.rawArrival = ct + p.travelTimeFromPrev.getD 0 ∧
    s.suggestedArrivalTime = s.arrivalAbs % 1440 ∧
    (schedulePlace pace dayNum weekday dayEnd ct p).1 =
      s.arrivalAbs + s.suggestedStayDuration + paceBufferTime pace ∧
    (s.rawArrival < 1440 → s.rawArrival ≤ s.arrivalAbs ∧ s.arrivalAbs < 1440) := by
  simp only [schedulePlace] at h ⊢
  split_ifs at h ⊢ <;> try simp at h
  all_goals subst h
  all_goals refine ⟨rfl, rfl, rfl, rfl, ?_⟩
  all_goals intro hraw
  all_goals
    have h1 := mealAdjust_bounds ct (ct + p.travelTimeFromPrev.getD 0) p hraw
  all_goals
    have h2 := nightAdjust_bounds (mealAdjust ct (ct + p.travelTimeFromPrev.getD 0) p) p h1.2
  all_goals
    have h3 := opensAdjust_bounds
      (nightAdjust (mealAdjust ct (ct + p.travelTimeFromPrev.getD 0) p) p).1
      (parseOperatingHours p.operatingHours).1 h2.2
      (fun o ho => parseOperatingHours_opens_lt p.operatingHours o ho)
  all_goals exact ⟨le_trans h1.1 (le_trans h2.1 h3.1), h3.2⟩

lemma schedulePlace_mustVisit_isSome (pace : String) (dayNum weekday dayEnd ct : Nat)
    (p : Place) (hm : p.mustVisit = true) :
    ((schedulePlace pace dayNum weekday dayEnd ct p).2.1).isSome = true := by
  simp only [schedulePlace]
  split_ifs <;> simp_all

lemma schedulePlace_mustVisit_warn (pace : String) (dayNum weekday dayEnd ct : Nat)
    (p : Place) (hm : p.mustVisit = true)
    (hv : violatesConstraints weekday dayEnd ct p = true) :
    (schedulePlace pace dayNum weekday dayEnd ct p).2.2 ≠ [] := by
  simp only [schedulePlace]
  split_ifs <;> simp_all [violatesConstraints]

lemma schedulePlace_night_stored (pace : String) (dayNum weekday dayEnd ct : Nat)
    (p : Place) (s : Stop) (hn : isNight p = true)
    (h : (schedulePlace pace dayNum weekday dayEnd ct p).2.1 = some s) :
    1200 ≤ s.suggestedArrivalTime := by
  simp only [schedulePlace] at h
  split_ifs at h <;> try simp at h
  all_goals subst h
  all_goals
    exact opensAdjust_stored _ _
      (fun o ho => parseOperatingHours_opens_lt p.operatingHours o ho)
      (nightAdjust_stored _ p hn)

/-! ## The per-day loop -/

lemma processPlaces_place_sublist (pace : String) (dayNum weekday dayEnd : Nat) :
    ∀ (l : List Place) (ct : Nat),
      ((processPlaces pace dayNum weekday dayEnd ct l).2.1.map (fun s => s.place)).Sublist l := by
  intro l
  induction l with
  | nil => intro ct; simp [processPlaces]
  | cons p rest ih =>
    intro ct
    simp only [processPlaces]
    cases hr : (schedulePlace pace dayNum weekday dayEnd ct p).2.1 with
    | none =>
      simp only [Option.toList_none, List.nil_append]
      exact (ih _).cons p
    | some s =>
      simp only [Option.toList_some, List.singleton_append, List.map_cons]
      rw [(schedulePlace_some_fields pace dayNum weekday dayEnd ct p s hr).1]
      exact (ih _).cons₂ p

lemma processPlaces_mustVisit_mem (pace : String) (dayNum weekday dayEnd : Nat)
    (p : Place) (hm : p.mustVisit = true) :
    ∀ (l : List Place) (ct : Nat), p ∈ l →
      p ∈ (processPlaces pace dayNum weekday dayEnd ct l).2.1.map (fun s => s.place) := by
  intro l
  induction l with
  | nil => intro ct hmem; simp at hmem
  | cons q rest ih =>
    intro ct hmem
    simp only [processPlaces]
    rcases List.mem_cons.mp hmem with rfl | hmem'
    · have hsome := schedulePlace_mustVisit_isSome pace dayNum weekday dayEnd ct p hm
      obtain ⟨s, hs⟩ := Option.isSome_iff_exists.mp hsome
      rw [hs]
      simp only [Option.toList_some, List.singleton_append, List.map_cons]
      rw [(schedulePlace_some_fields pace dayNum weekday dayEnd ct p s hs).1]
      exact List.mem_cons_self _ _
    · cases hr : (schedulePlace pace dayNum weekday dayEnd ct q).2.1 with
      | none =>
        simp only [Option.toList_none, List.nil_append]
        exact ih _ hmem'
      | some s =>
        simp only [Option.toList_some, List.singleton_append, List.map_cons]
        exact List.mem_cons_of_mem _ (ih _ hmem')

lemma processPlaces_chain (pace : String) (dayNum weekday dayEnd : Nat) :
    ∀ (l : List Place) (ct : Nat),
      (∀ s ∈ (processPlaces pace dayNum weekday dayEnd ct l).2.1, s.rawArrival < 1440) →
      (processPlaces pace dayNum weekday dayEnd ct l).2.1.Chain'
          (fun a b => a.suggestedArrivalTime ≤ b.suggestedArrivalTime) ∧
        ∀ s ∈ (processPlaces pace dayNum weekday dayEnd ct l).2.1,
          ct ≤ s.arrivalAbs ∧ s.arrivalAbs < 1440 ∧
            s.suggestedArrivalTime = s.arrivalAbs := by
  intro l
  induction l with
  | nil =>
    intro ct _
    exact ⟨List.chain'_nil, fun s hs => by simp [processPlaces] at hs⟩
  | cons p rest ih =>
    intro ct hraw
    simp only [processPlaces] at hraw ⊢
    cases hr : (schedulePlace pace dayNum weekday dayEnd ct p).2.1 with
    | none =>
      rw [hr] at hraw
      simp only [Option.toList_none, List.nil_append] at hraw ⊢
      have hct := schedulePlace_none_ct pace dayNum weekday dayEnd ct p hr
      have := ih _ hraw
      exact ⟨this.1, fun s hs =>
        ⟨le_trans hct (this.2 s hs).1, (this.2 s hs).2.1, (this.2 s hs).2.2⟩⟩
    | some s₀ =>
      rw [hr] at hraw
      simp only [Option.toList_some, List.singleton_append] at hraw ⊢
      have hfields := schedulePlace_some_fields pace dayNum weekday dayEnd ct p s₀ hr
      have hs₀raw : s₀.rawArrival < 1440 := hraw s₀ (List.mem_cons_self _ _)
      have hbounds := hfields.2.2.2.2 hs₀raw
      have hctraw : ct ≤ s₀.rawArrival := by rw [hfields.2.1]; omega
      have hr1 : s₀.arrivalAbs ≤ (schedulePlace pace dayNum weekday dayEnd ct p).1 := by
        rw [hfields.2.2.2.1]
        omega
      have hrest := ih _ (fun s hs => hraw s (List.mem_cons_of_mem _ hs))
      have hstored : s₀.suggestedArrivalTime = s₀.arrivalAbs := by
        rw [hfields.2.2.1, Nat.mod_eq_of_lt hbounds.2]
      constructor
      · rw [List.chain'_cons']
        refine ⟨?_, hrest.1⟩
        intro b hb
        have hbmem : b ∈ (processPlaces pace dayNum weekday dayEnd
            ((schedulePlace pace dayNum weekday dayEnd ct p).1) rest).2.1 :=
          List.mem_of_mem_head? hb
        have hbb := hrest.2 b hbmem
        rw [hstored, hbb.2.2]
        exact le_trans hr1 hbb.1
      · intro s hs
        rcases List.mem_cons.mp hs with rfl | hs'
        · exact ⟨le_trans hctraw hbounds.1, hbounds.2, hstored⟩
        · have hbb := hrest.2 s hs'
          exact ⟨le_trans (le_trans hctraw (le_trans hbounds.1 hr1)) hbb.1,
            hbb.2.1, hbb.2.2⟩

lemma restructureDay_subset (l : List Place) : ∀ q ∈ restructureDay l, q ∈ l := by
  intro q hq
  simp only [restructureDay, List.mem_append] at hq
  rcases hq with ((((h | h) | h) | h) | h)
  · exact List.mem_of_mem_filter (List.take_subset _ _ h)
  · rw [Option.mem_toList] at h
    exact List.mem_of_mem_filter (List.getElem?_mem h)
  · exact List.mem_of_mem_filter (List.drop_subset _ _ h)
  · rw [Option.mem_toList] at h
    exact List.mem_of_mem_filter (List.getElem?_mem h)
  · exact List.mem_of_mem_filter h

lemma restructureDay_decomp (l : List Place) :
    restructureDay l =
      ((l.filter (fun p => !isMeal p && !isNight p)).take
          (min ((l.filter (fun p => !isMeal p && !isNight p)).length / 2) 2) ++
        ((l.filter (fun p => isMeal p && !isNight p))[0]?).toList ++
        (l.filter (fun p => !isMeal p && !isNight p)).drop
          (min ((l.filter (fun p => !isMeal p && !isNight p)).length / 2) 2) ++
        ((l.filter (fun p => isMeal p && !isNight p))[1]?).toList) ++
      l.filter (fun p => isNight p) := by
  rw [restructureDay]

lemma restructureDay_nonNight_front (l : List Place) :
    ∀ q ∈ ((l.filter (fun p => !isMeal p && !isNight p)).take
          (min ((l.filter (fun p => !isMeal p && !isNight p)).length / 2) 2) ++
        ((l.filter (fun p => isMeal p && !isNight p))[0]?).toList ++
        (l.filter (fun p => !isMeal p && !isNight p)).drop
          (min ((l.filter (fun p => !isMeal p && !isNight p)).length / 2) 2) ++
        ((l.filter (fun p => isMeal p && !isNight p))[1]?).toList),
      isNight q = false := by
  intro q hq
  simp only [List.mem_append] at hq
  have hothers : ∀ x ∈ l.filter (fun p => !isMeal p && !isNight p), isNight x = false := by
    intro x hx
    have := List.of_mem_filter hx
    simp at this
    exact this.2
  have hmeals : ∀ x ∈ l.filter (fun p => isMeal p && !isNight p), isNight x = false := by
    intro x hx
    have := List.of_mem_filter hx
    simp at this
    exact this.2
  rcases hq with (((h | h) | h) | h)
  · exact hothers q (List.take_subset _ _ h)
  · rw [Option.mem_toList] at h
    exact hmeals q (List.getElem?_mem h)
  · exact hothers q (List.drop_subset _ _ h)
  · rw [Option.mem_toList] at h
    exact hmeals q (List.getElem?_mem h)

lemma pairwise_imp_of_all_false {α : Type} (P : α → Bool) :
    ∀ (l : List α), (∀ x ∈ l, P x = false) →
      l.Pairwise (fun a b => P a = true → P b = true) := by
  intro l
  induction l with
  | nil => intro _; exact List.Pairwise.nil
  | cons a rest ih =>
    intro h
    refine List.Pairwise.cons ?_ (ih fun x hx => h x (List.mem_cons_of_mem _ hx))
    intro b _ hPa
    rw [h a (List.mem_cons_self _ _)] at hPa
    exact absurd hPa (by simp)

lemma pairwise_imp_of_all_true {α : Type} (P : α → Bool) :
    ∀ (l : List α), (∀ x ∈ l, P x = true) →
      l.Pairwise (fun a b => P a = true → P b = true) := by
  intro l
  induction l with
  | nil => intro _; exact List.Pairwise.nil
  | cons a rest ih =>
    intro h
    exact List.Pairwise.cons
      (fun b hb _ => h b (List.mem_cons_of_mem _ hb))
      (ih fun x hx => h x (List.mem_cons_of_mem _ hx))

lemma processPlaces_night (pace : String) (dayNum weekday dayEnd : Nat) :
    ∀ (l : List Place) (ct : Nat) (s : Stop),
      s ∈ (processPlaces pace dayNum weekday dayEnd ct l).2.1 →
      isNight s.place = true → 1200 ≤ s.suggestedArrivalTime := by
  intro l
  induction l with
  | nil => intro ct s hs; simp [processPlaces] at hs
  | cons p rest ih =>
    intro ct s hs hn
    simp only [processPlaces] at hs
    cases hr : (schedulePlace pace dayNum weekday dayEnd ct p).2.1 with
    | none =>
      rw [hr] at hs
      simp only [Option.toList_none, List.nil_append] at hs
      exact ih _ s hs hn
    | some s₀ =>
      rw [hr] at hs
      simp only [Option.toList_some, List.singleton_append] at hs
      rcases List.mem_cons.mp hs with rfl | hs'
      · have hfields := schedulePlace_some_fields pace dayNum weekday dayEnd ct p s hr
        exact schedulePlace_night_stored pace dayNum weekday dayEnd ct p s
          (hfields.1 ▸ hn) hr
      · exact ih _ s hs' hn

lemma assignStopOrder_map_place :
    ∀ (l : List Stop) (k : Nat),
      (assignStopOrder k l).map (fun s => s.place) = l.map (fun s => s.place) := by
  intro l
  induction l with
  | nil => intro k; rfl
  | cons s rest ih => intro k; simp [assignStopOrder, ih]

lemma assignStopOrder_map_arrival :
    ∀ (l : List Stop) (k : Nat),
      (assignStopOrder k l).map (fun s => s.suggestedArrivalTime) =
        l.map (fun s => s.suggestedArrivalTime) := by
  intro l
  induction l with
  | nil => intro k; rfl
  | cons s rest ih => intro k; simp [assignStopOrder, ih]

lemma assignStopOrder_map_raw :
    ∀ (l : List Stop) (k : Nat),
      (assignStopOrder k l).map (fun s => s.rawArrival) =
        l.map (fun s => s.rawArrival) := by
  intro l
  induction l with
  | nil => intro k; rfl
  | cons s rest ih => intro k; simp [assignStopOrder, ih]

lemma assignStopOrder_length :
    ∀ (l : List Stop) (k : Nat), (assignStopOrder k l).length = l.length := by
  intro l
  induction l with
  | nil => intro k; rfl
  | cons s rest ih => intro k; simp [assignStopOrder, ih]

lemma assignStopOrder_orderIndex :
    ∀ (l : List Stop) (k : Nat),
      (assignStopOrder k l).map (fun s => s.orderIndex) = List.range' k l.length := by
  intro l
  induction l with
  | nil => intro k; rfl
  | cons s rest ih => intro k; simp [assignStopOrder, List.range'_succ, ih]

lemma mem_assignStopOrder :
    ∀ (l : List Stop) (k : Nat) (s : Stop), s ∈ assignStopOrder k l →
      ∃ s₀ ∈ l, s.place = s₀.place ∧
        s.suggestedArrivalTime = s₀.suggestedArrivalTime ∧
        s.rawArrival = s₀.rawArrival := by
  intro l
  induction l with
  | nil => intro k s hs; simp [assignStopOrder] at hs
  | cons t rest ih =>
    intro k s hs
    rw [assignStopOrder] at hs
    rcases List.mem_cons.mp hs with rfl | hs'
    · exact ⟨t, List.mem_cons_self _ _, rfl, rfl, rfl⟩
    · obtain ⟨s₀, hs₀, h⟩ := ih (k + 1) s hs'
      exact ⟨s₀, List.mem_cons_of_mem _ hs₀, h⟩

lemma processDay_order (pace : String) (dayNum weekday dayStart dayEnd : Nat)
    (places : List Place) :
    ((processDay pace dayNum weekday dayStart dayEnd places).1).map (fun s => s.orderIndex) =
      List.range' 1 ((processDay pace dayNum weekday dayStart dayEnd places).1).length := by
  simp only [processDay]
  rw [assignStopOrder_orderIndex, assignStopOrder_length]

lemma processDay_chain (pace : String) (dayNum weekday dayStart dayEnd : Nat)
    (places : List Place)
    (h : ∀ s ∈ (processDay pace dayNum weekday dayStart dayEnd places).1, s.rawArrival < 1440) :
    ((processDay pace dayNum weekday dayStart dayEnd places).1.map
      (fun s => s.suggestedArrivalTime)).Chain' (· ≤ ·) := by
  simp only [processDay] at h ⊢
  rw [assignStopOrder_map_arrival]
  have hraw : ∀ s ∈ (processPlaces pace dayNum weekday dayEnd dayStart
      (restructureDay places)).2.1, s.rawArrival < 1440 := by
    intro s hs
    have hmem : s.rawArrival ∈ (processPlaces pace dayNum weekday dayEnd dayStart
        (restructureDay places)).2.1.map (fun s => s.rawArrival) :=
      List.mem_map_of_mem _ hs
    rw [← assignStopOrder_map_raw _ 1] at hmem
    obtain ⟨t, ht, hteq⟩ := List.mem_map.mp hmem
    exact hteq ▸ h t ht
  exact (List.chain'_map _).mpr
    (processPlaces_chain pace dayNum weekday dayEnd (restructureDay places) dayStart hraw).1

lemma processDay_night_arrival (pace : String) (dayNum weekday dayStart dayEnd : Nat)
    (places : List Place) :
    ∀ s ∈ (processDay pace dayNum weekday dayStart dayEnd places).1,
      isNight s.place = true → 1200 ≤ s.suggestedArrivalTime := by
  intro s hs hn
  simp only [processDay] at hs
  obtain ⟨s₀, hs₀, hpl, harr, _⟩ := mem_assignStopOrder _ 1 s hs
  rw [harr]
  exact processPlaces_night pace dayNum weekday dayEnd (restructureDay places) dayStart s₀ hs₀
    (hpl ▸ hn)

lemma processDay_night_pairwise (pace : String) (dayNum weekday dayStart dayEnd : Nat)
    (places : List Place) :
    ((processDay pace dayNum weekday dayStart dayEnd places).1).Pairwise
      (fun a b => isNight a.place = true → isNight b.place = true) := by
  have hkey : (((processDay pace dayNum weekday dayStart dayEnd places).1).map
      (fun s => s.place)).Pairwise (fun a b => isNight a = true → isNight b = true) := by
    simp only [processDay]
    rw [assignStopOrder_map_place]
    have hsub := processPlaces_place_sublist pace dayNum weekday dayEnd
      (restructureDay places) dayStart
    rw [restructureDay_decomp places] at hsub
    refine List.Pairwise.sublist hsub ?_
    rw [List.pairwise_append]
    refine ⟨pairwise_imp_of_all_false _ _ (restructureDay_nonNight_front places), ?_, ?_⟩
    · refine pairwise_imp_of_all_true _ _ ?_
      intro x hx
      exact List.of_mem_filter hx
    · intro a _ b hb _
      exact List.of_mem_filter hb
  exact (List.pairwise_map).mp hkey

lemma processDay_mustVisit_mem (pace : String) (dayNum weekday dayStart dayEnd : Nat)
    (places : List Place) (p : Place) (hm : p.mustVisit = true)
    (hmem : p ∈ restructureDay places) :
    p ∈ ((processDay pace dayNum weekday dayStart dayEnd places).1).map (fun s => s.place) := by
  simp only [processDay]
  rw [assignStopOrder_map_place]
  exact processPlaces_mustVisit_mem pace dayNum weekday dayEnd p hm (restructureDay places)
    dayStart hmem

lemma processDay_place_mem_input (pace : String) (dayNum weekday dayStart dayEnd : Nat)
    (places : List Place) (q : Place)
    (h : q ∈ ((processDay pace dayNum weekday dayStart dayEnd places).1).map (fun s => s.place)) :
    q ∈ places := by
  simp only [processDay] at h
  rw [assignStopOrder_map_place] at h
  exact restructureDay_subset places q
    ((processPlaces_place_sublist pace dayNum weekday dayEnd (restructureDay places)
      dayStart).subset h)

/-! ## C5 -/

def c5p1 : Place :=
  { basePlace with
    travelTimeFromPrev := some 760
    suggestedStayDuration := some 300
    name := some "A" }

def c5p2 : Place :=
  { basePlace with
    isNightPlace := true
    name := some "B" }

def c5stopA : Stop :=
  { place := c5p1, rawArrival := 1300, arrivalAbs := 1300,
    suggestedArrivalTime := 1300, suggestedStayDuration := 300, orderIndex := 1 }

def c5stopB : Stop :=
  { place := c5p2, rawArrival := 1615, arrivalAbs := 1200,
    suggestedArrivalTime := 1200, suggestedStayDuration := 60, orderIndex := 2 }

/-- C5 as stated is false: with default preferences, a day whose processing
runs past midnight stores a wrapped time-of-day, so
`suggested_arrival_time` decreases (here 21:40 is followed by 20:00) even
though `order_index` stays contiguous. -/
theorem c5_counterexample :
    ¬ ∀ e ∈ (applyConstraints none 0 [(1, [c5p1, c5p2])]).1,
        (e.2.map (fun s => s.orderIndex) = List.range' 1 e.2.length) ∧
        (e.2.map (fun s => s.suggestedArrivalTime)).Chain' (· ≤ ·) := by
  intro h
  have h2 := (h (1, [c5stopA, c5stopB]) (by decide)).2
  simp [c5stopA, c5stopB, List.chain'_cons] at h2

/-- C5, amended: `order_index` always forms the contiguous sequence 1..n; and
whenever every stop's pre-adjustment arrival stays before midnight of its
day, `suggested_arrival_time` is non-decreasing in `order_index` (once the
loop crosses midnight the stored time-of-day wraps and may decrease). -/
theorem c5_day_plan_invariants (preference : Option UserPref) (startW : Nat)
    (days : List (Nat × List Place)) :
    ∀ e ∈ (applyConstraints preference startW days).1,
      (e.2.map (fun s => s.orderIndex) = List.range' 1 e.2.length) ∧
      ((∀ s ∈ e.2, s.rawArrival < 1440) →
        (e.2.map (fun s => s.suggestedArrivalTime)).Chain' (· ≤ ·)) := by
  intro e he
  obtain ⟨a, _, rfl⟩ := List.mem_map.mp he
  exact ⟨processDay_order _ _ _ _ _ _, fun hraw => processDay_chain _ _ _ _ _ _ hraw⟩

def c5stop : Stop :=
  { place := basePlace, rawArrival := 540, arrivalAbs := 540,
    suggestedArrivalTime := 540, suggestedStayDuration := 60, orderIndex := 1 }

theorem c5_day_plan_invariants_witness :
    (((1 : Nat), [c5stop]).2.map (fun s => s.orderIndex) =
        List.range' 1 ((1 : Nat), [c5stop]).2.length) ∧
      (((1 : Nat), [c5stop]).2.map (fun s => s.suggestedArrivalTime)).Chain' (· ≤ ·) := by
  have h := c5_day_plan_invariants none 0 [(1, [basePlace])] (1, [c5stop]) (by decide)
  exact ⟨h.1, h.2 (by decide)⟩

/-! ## C6 -/

def c6n (i : Nat) : Place := { basePlace with isNightPlace := true, placeId := i }

/-- C6 as stated is false: when several night places are kept on one day they
are all scheduled at or after 20:00 in sequence, so the earlier one is not
the last stop of its day. -/
theorem c6_counterexample :
    ¬ ∀ e ∈ (applyConstraints none 0 [(1, [c6n 1, c6n 2])]).1, ∀ s ∈ e.2,
        isNight s.place = true →
        1200 ≤ s.suggestedArrivalTime ∧ e.2.getLast? = some s := by decide

/-- C6, amended: every night-classified stop is scheduled at or after 20:00,
and only night stops may follow a night stop (night stops form a suffix of
the day); when a single night stop is kept it is therefore the last stop. -/
theorem c6_night_stops (preference : Option UserPref) (startW : Nat)
    (days : List (Nat × List Place)) :
    ∀ e ∈ (applyConstraints preference startW days).1,
      (∀ s ∈ e.2, isNight s.place = true → 1200 ≤ s.suggestedArrivalTime) ∧
      e.2.Pairwise (fun a b => isNight a.place = true → isNight b.place = true) := by
  intro e he
  obtain ⟨a, _, rfl⟩ := List.mem_map.mp he
  exact ⟨fun s hs hn => processDay_night_arrival _ _ _ _ _ _ s hs hn,
    processDay_night_pairwise _ _ _ _ _ _⟩

def c6stop1 : Stop :=
  { place := c6n 1, rawArrival := 540, arrivalAbs := 1200,
    suggestedArrivalTime := 1200, suggestedStayDuration := 60, orderIndex := 1 }

def c6stop2 : Stop :=
  { place := c6n 2, rawArrival := 1275, arrivalAbs := 1275,
    suggestedArrivalTime := 1275, suggestedStayDuration := 60, orderIndex := 2 }

theorem c6_night_stops_witness :
    (∀ s ∈ ((1 : Nat), [c6stop1, c6stop2]).2,
        isNight s.place = true → 1200 ≤ s.suggestedArrivalTime) ∧
      ((1 : Nat), [c6stop1, c6stop2]).2.Pairwise
        (fun a b => isNight a.place = true → isNight b.place = true) :=
  c6_night_stops none 0 [(1, [c6n 1, c6n 2])] (1, [c6stop1, c6stop2]) (by decide)

/-! ## C1 -/

def c1r (i : Nat) : Place :=
  { basePlace with placeCategory := some "식당", mustVisit := true, placeId := i }

/-- C1 as stated is false: a third must-visit restaurant on one day is
silently discarded by the meal-slot re-sequencing (`식당 최대 2개, 초과분은
버림`): it appears in no day's output and no Warning is emitted. -/
theorem c1_counterexample :
    (c1r 3).mustVisit = true ∧ c1r 3 ∈ [c1r 1, c1r 2, c1r 3] ∧
      (applyConstraints none 0 [(1, [c1r 1, c1r 2, c1r 3])]).1.countP
        (fun e => decide (c1r 3 ∈ e.2.map (fun s => s.place))) = 0 ∧
      (applyConstraints none 0 [(1, [c1r 1, c1r 2, c1r 3])]).2 = [] := by decide

/-- C1, amended: a must-visit place that the meal-slot re-sequencing retains
(i.e. that is not a third-or-later restaurant of its day) appears in exactly
one day's output; and the loop never drops a must-visit place: when it
violates the closed-day, after-hours or day-end constraint it is kept and at
least one Warning is emitted. -/
theorem c1_must_visit_kept :
    (∀ (preference : Option UserPref) (startW : Nat) (days : List (Nat × List Place))
      (p : Place),
      p.mustVisit = true →
      days.countP (fun e => decide (p ∈ restructureDay e.2)) = 1 →
      days.countP (fun e => decide (p ∈ e.2)) = 1 →
      (applyConstraints preference startW days).1.countP
        (fun e => decide (p ∈ e.2.map (fun s => s.place))) = 1) ∧
    (∀ (pace : String) (dayNum weekday dayEnd ct : Nat) (p : Place),
      p.mustVisit = true →
      ((schedulePlace pace dayNum weekday dayEnd ct p).2.1).isSome = true ∧
      (violatesConstraints weekday dayEnd ct p = true →
        (schedulePlace pace dayNum weekday dayEnd ct p).2.2 ≠ [])) := by
  constructor
  · intro preference startW days p hm hrestr hin
    rw [applyConstraints]
    rw [List.countP_map]
    have h1 : days.countP (fun e => decide (p ∈ restructureDay e.2)) ≤
        days.countP ((fun e => decide (p ∈ e.2.map (fun s => s.place))) ∘ (fun e =>
          (e.1, (processDay (applyPace preference) e.1 ((startW + (e.1 - 1)) % 7)
            (applyDayStart preference) (applyDayEnd preference) e.2).1))) := by
      apply List.countP_mono_left
      intro a _ ha
      simp only [Function.comp]
      exact decide_eq_true (processDay_mustVisit_mem _ _ _ _ _ _ p hm (of_decide_eq_true ha))
    have h2 : days.countP ((fun e => decide (p ∈ e.2.map (fun s => s.place))) ∘ (fun e =>
          (e.1, (processDay (applyPace preference) e.1 ((startW + (e.1 - 1)) % 7)
            (applyDayStart preference) (applyDayEnd preference) e.2).1))) ≤
        days.countP (fun e => decide (p ∈ e.2)) := by
      apply List.countP_mono_left
      intro a _ ha
      simp only [Function.comp] at ha
      exact decide_eq_true (processDay_place_mem_input _ _ _ _ _ _ p (of_decide_eq_true ha))
    omega
  · intro pace dayNum weekday dayEnd ct p hm
    exact ⟨schedulePlace_mustVisit_isSome pace dayNum weekday dayEnd ct p hm,
      fun hv => schedulePlace_mustVisit_warn pace dayNum weekday dayEnd ct p hm hv⟩

def c1mp : Place := { basePlace with mustVisit := true }

theorem c1_must_visit_kept_witness :
    (applyConstraints none 0 [(1, [c1mp])]).1.countP
        (fun e => decide (c1mp ∈ e.2.map (fun s => s.place))) = 1 ∧
      ((schedulePlace "moderate" 1 0 1380 540 c1mp).2.1).isSome = true := by
  refine ⟨c1_must_visit_kept.1 none 0 [(1, [c1mp])] c1mp (by decide) (by decide) (by decide),
    (c1_must_visit_kept.2 "moderate" 1 0 1380 540 c1mp (by decide)).1⟩

/-! ## C7: `PlannerService._build_places_by_day` -/

/-- One entry of a draft day's `places` array. -/
structure DraftPlace where
  placeId : Nat
  order : Option Nat
  stayDuration : Option ℚ
  isNight : Option Bool
  reason : Option String
deriving DecidableEq

/-- One entry of the draft's `days` array. -/
structure DraftDay where
  dayNumber : Nat
  places : List DraftPlace
deriving DecidableEq

/-- The parsed draft, reduced to the `days` array that
`_build_places_by_day` reads. -/
structure Draft where
  days : List DraftDay
deriving DecidableEq

/-- `place_dict[k]` / `k in place_dict` on the scored pool (an association
list keyed by place id). -/
def dictLookup (pool : List (Nat × Place)) (k : Nat) : Option Place :=
  (pool.find? (fun e => decide (e.1 = k))).map (fun e => e.2)

/-- `result[day_num] = places` on a dict modelled as an association list in
insertion order: overwrite in place when the key exists, append otherwise. -/
def dictSet (l : List (Nat × List Place)) (k : Nat) (v : List Place) :
    List (Nat × List Place) :=
  if l.any (fun e => decide (e.1 = k)) then
    l.map (fun e => if e.1 = k then (k, v) else e)
  else l ++ [(k, v)]

/-- The inner `for place_data in day_data.get("places", [])` loop: skip ids
missing from the pool or already placed, otherwise copy the pool entry and
write the draft's fields into it. -/
def buildDayPlaces (pool : List (Nat × Place)) (dayNum : Nat) :
    List DraftPlace → List Place × List Nat → List Place × List Nat
  | [], acc => acc
  | pd :: rest, (placesAcc, used) =>
    match dictLookup pool pd.placeId with
    | none => buildDayPlaces pool dayNum rest (placesAcc, used)
    | some pl =>
      if pd.placeId ∈ used then buildDayPlaces pool dayNum rest (placesAcc, used)
      else
        buildDayPlaces pool dayNum rest
          (placesAcc ++ [{ pl with
              orderIndex := some (pd.order.getD (placesAcc.length + 1)),
              suggestedStayDuration := some (pd.stayDuration.getD 60),
              isNightPlace := pd.isNight.getD false,
              selectionReason := some (pd.reason.getD "AI 추천"),
              dayNumber := some dayNum,
              placeCategory := pl.category,
              placeName := pl.name,
              placeAddress := pl.address }],
            used ++ [pd.placeId])

/-- The outer `for day_data in draft.get("days", [])` loop, threading the
result dict and the `used_place_ids` set (as a list in insertion order). -/
def buildGo (pool : List (Nat × Place)) :
    List DraftDay → List (Nat × List Place) × List Nat →
      List (Nat × List Place) × List Nat
  | [], acc => acc
  | dd :: rest, (result, used) =>
    buildGo pool rest
      (dictSet result dd.dayNumber (buildDayPlaces pool dd.dayNumber dd.places ([], used)).1,
        (buildDayPlaces pool dd.dayNumber dd.places ([], used)).2)

/-- `PlannerService._build_places_by_day`. -/
def buildPlacesByDay (draft : Draft) (pool : List (Nat × Place)) :
    List (Nat × List Place) :=
  (buildGo pool draft.days ([], [])).1

lemma dictLookup_keys (pool : List (Nat × Place))
    (hkeys : ∀ e ∈ pool, e.2.placeId = e.1) (k : Nat) (pl : Place)
    (h : dictLookup pool k = some pl) : pl.placeId = k := by
  rw [dictLookup] at h
  cases hf : pool.find? (fun e => decide (e.1 = k)) with
  | none => rw [hf] at h; exact Option.noConfusion h
  | some e₀ =>
    rw [hf] at h
    have h' : e₀.2 = pl := Option.some.inj h
    have hp := List.find?_some hf
    have h1 : e₀.1 = k := of_decide_eq_true hp
    have h2 : e₀ ∈ pool := List.mem_of_find?_eq_some hf
    rw [← h', hkeys e₀ h2, h1]

lemma dictSet_fresh (l : List (Nat × List Place)) (k : Nat) (v : List Place)
    (h : ∀ e ∈ l, e.1 ≠ k) : dictSet l k v = l ++ [(k, v)] := by
  rw [dictSet, if_neg]
  intro hany
  rw [List.any_eq_true] at hany
  obtain ⟨e, he, hek⟩ := hany
  exact h e he (of_decide_eq_true hek)

lemma buildDayPlaces_spec (pool : List (Nat × Place))
    (hkeys : ∀ e ∈ pool, e.2.placeId = e.1) (dn : Nat) :
    ∀ (pds : List DraftPlace) (acc : List Place) (used : List Nat),
      ∃ delta : List Place,
        (buildDayPlaces pool dn pds (acc, used)).1 = acc ++ delta ∧
        (buildDayPlaces pool dn pds (acc, used)).2 =
          used ++ delta.map (fun q => q.placeId) ∧
        (∀ q ∈ delta, (dictLookup pool q.placeId).isSome = true ∧
          q.placeId ∉ used ∧ q.placeId ∈ pds.map (fun pd => pd.placeId)) ∧
        (delta.map (fun q => q.placeId)).Nodup ∧
        (∀ pd ∈ pds, (dictLookup pool pd.placeId).isSome = true →
          pd.placeId ∈ (buildDayPlaces pool dn pds (acc, used)).2) := by
  intro pds
  induction pds with
  | nil =>
    intro acc used
    refine ⟨[], by simp [buildDayPlaces], by simp [buildDayPlaces], ?_, ?_, ?_⟩
    · intro q hq
      exact absurd hq (List.not_mem_nil q)
    · simp
    · intro pd hpd
      exact absurd hpd (List.not_mem_nil pd)
  | cons pd rest ih =>
    intro acc used
    cases hlk : dictLookup pool pd.placeId with
    | none =>
      have hstep : buildDayPlaces pool dn (pd :: rest) (acc, used) =
          buildDayPlaces pool dn rest (acc, used) := by
        rw [buildDayPlaces, hlk]
      obtain ⟨delta, h1, h2, h3, h4, h5⟩ := ih acc used
      rw [hstep]
      refine ⟨delta, h1, h2, ?_, h4, ?_⟩
      · intro q hq
        obtain ⟨a, b, c⟩ := h3 q hq
        exact ⟨a, b, by simp [c]⟩
      · intro pd' hpd' hsome
        rcases List.mem_cons.mp hpd' with rfl | hpd''
        · rw [hlk] at hsome
          simp at hsome
        · exact h5 pd' hpd'' hsome
    | some pl =>
      by_cases hu : pd.placeId ∈ used
      · have hstep : buildDayPlaces pool dn (pd :: rest) (acc, used) =
            buildDayPlaces pool dn rest (acc, used) := by
          rw [buildDayPlaces, hlk]
          exact if_pos hu
        obtain ⟨delta, h1, h2, h3, h4, h5⟩ := ih acc used
        rw [hstep]
        refine ⟨delta, h1, h2, ?_, h4, ?_⟩
        · intro q hq
          obtain ⟨a, b, c⟩ := h3 q hq
          exact ⟨a, b, by simp [c]⟩
        · intro pd' hpd' hsome
          rcases List.mem_cons.mp hpd' with rfl | hpd''
          · rw [h2]
            exact List.mem_append_left _ hu
          · exact h5 pd' hpd'' hsome
      · have hpid : pl.placeId = pd.placeId := dictLookup_keys pool hkeys pd.placeId pl hlk
        have hstep : buildDayPlaces pool dn (pd :: rest) (acc, used) =
            buildDayPlaces pool dn rest
              (acc ++ [{ pl with
                  orderIndex := some (pd.order.getD (acc.length + 1)),
                  suggestedStayDuration := some (pd.stayDuration.getD 60),
                  isNightPlace := pd.isNight.getD false,
                  selectionReason := some (pd.reason.getD "AI 추천"),
                  dayNumber := some dn,
                  placeCategory := pl.category,
                  placeName := pl.name,
                  placeAddress := pl.address }],
                used ++ [pd.placeId]) := by
          rw [buildDayPlaces, hlk]
          exact if_neg hu
        obtain ⟨delta, h1, h2, h3, h4, h5⟩ := ih
          (acc ++ [{ pl with
            orderIndex := some (pd.order.getD (acc.length + 1)),
            suggestedStayDuration := some (pd.stayDuration.getD 60),
            isNightPlace := pd.isNight.getD false,
            selectionReason := some (pd.reason.getD "AI 추천"),
            dayNumber := some dn,
            placeCategory := pl.category,
            placeName := pl.name,
            placeAddress := pl.address }])
          (used ++ [pd.placeId])
        rw [hstep]
        refine ⟨{ pl with
            orderIndex := some (pd.order.getD (acc.length + 1)),
            suggestedStayDuration := some (pd.stayDuration.getD 60),
            isNightPlace := pd.isNight.getD false,
            selectionReason := some (pd.reason.getD "AI 추천"),
            dayNumber := some dn,
            placeCategory := pl.category,
            placeName := pl.name,
            placeAddress := pl.address } :: delta, ?_, ?_, ?_, ?_, ?_⟩
        · rw [h1, List.append_assoc, List.singleton_append]
        · rw [h2, List.map_cons]
          simp only [List.append_assoc, List.singleton_append]
          exact congrArg
            (fun x => used ++ x :: List.map (fun q => q.placeId) delta) hpid.symm
        · intro q hq
          rcases List.mem_cons.mp hq with rfl | hq'
          · refine ⟨?_, ?_, ?_⟩
            · show (dictLookup pool pl.placeId).isSome = true
              rw [hpid, hlk]
              rfl
            · show pl.placeId ∉ used
              rw [hpid]
              exact hu
            · show pl.placeId ∈ List.map (fun pd => pd.placeId) (pd :: rest)
              rw [hpid]
              simp
          · obtain ⟨a, b, c⟩ := h3 q hq'
            refine ⟨a, fun hmem => b (List.mem_append_left _ hmem), by simp [c]⟩
        · rw [List.map_cons]
          refine List.Pairwise.cons ?_ h4
          intro b hb heq
          obtain ⟨q, hq, hqb⟩ := List.mem_map.mp hb
          obtain ⟨_, hnot, _⟩ := h3 q hq
          apply hnot
          have hqb' : q.placeId = b := hqb
          rw [hqb', ← heq]
          show pl.placeId ∈ used ++ [pd.placeId]
          rw [hpid]
          exact List.mem_append_right _ (List.mem_singleton_self _)
        · intro pd' hpd' hsome
          rcases List.mem_cons.mp hpd' with rfl | hpd''
          · rw [h2]
            refine List.mem_append_left _ (List.mem_append_right _ ?_)
            exact List.mem_singleton_self _
          · exact h5 pd' hpd'' hsome

/-- Place ids of one entry of the per-day dict. -/
def entryIds (e : Nat × List Place) : List Nat :=
  e.2.map (fun q => q.placeId)

/-- All place ids of the per-day dict, across all days. -/
def allPlaceIds (l : List (Nat × List Place)) : List Nat :=
  l.flatMap entryIds

lemma buildGo_cons (pool : List (Nat × Place)) (dd : DraftDay)
    (rest : List DraftDay) (s : List (Nat × List Place) × List Nat) :
    buildGo pool (dd :: rest) s =
      buildGo pool rest
        (dictSet s.1 dd.dayNumber
            (buildDayPlaces pool dd.dayNumber dd.places ([], s.2)).1,
          (buildDayPlaces pool dd.dayNumber dd.places ([], s.2)).2) := by
  obtain ⟨r, u⟩ := s
  rfl

lemma buildGo_append (pool : List (Nat × Place)) (xs ys : List DraftDay) :
    ∀ s, buildGo pool (xs ++ ys) s = buildGo pool ys (buildGo pool xs s) := by
  induction xs with
  | nil =>
    intro s
    obtain ⟨r, u⟩ := s
    rfl
  | cons dd rest ih =>
    intro s
    rw [List.cons_append, buildGo_cons, buildGo_cons, ih]

lemma buildGo_spec (pool : List (Nat × Place))
    (hkeys : ∀ e ∈ pool, e.2.placeId = e.1) :
    ∀ (dds : List DraftDay) (result : List (Nat × List Place)) (used : List Nat),
      (∀ dd ∈ dds, ∀ e ∈ result, e.1 ≠ dd.dayNumber) →
      (dds.map DraftDay.dayNumber).Nodup →
      ∃ newE : List (Nat × List Place),
        (buildGo pool dds (result, used)).1 = result ++ newE ∧
        (buildGo pool dds (result, used)).2 = used ++ allPlaceIds newE ∧
        newE.map Prod.fst = dds.map DraftDay.dayNumber ∧
        (allPlaceIds newE).Nodup ∧
        (∀ k ∈ allPlaceIds newE, k ∉ used) ∧
        (∀ e ∈ newE, ∃ dd ∈ dds, e.1 = dd.dayNumber ∧
          ∀ q ∈ e.2, (dictLookup pool q.placeId).isSome = true ∧
            q.placeId ∈ dd.places.map (fun pd => pd.placeId)) ∧
        (∀ dd ∈ dds, ∀ pd ∈ dd.places,
          (dictLookup pool pd.placeId).isSome = true →
          pd.placeId ∈ used ++ allPlaceIds newE) := by
  intro dds
  induction dds with
  | nil =>
    intro result used _ _
    refine ⟨[], ?_, ?_, rfl, ?_, ?_, ?_, ?_⟩
    · exact (List.append_nil result).symm
    · show used = used ++ allPlaceIds []
      simp [allPlaceIds]
    · simp [allPlaceIds]
    · intro k hk
      simp [allPlaceIds] at hk
    · intro e he
      exact absurd he (List.not_mem_nil e)
    · intro dd hdd
      exact absurd hdd (List.not_mem_nil dd)
  | cons dd rest ih =>
    intro result used hdisj hnd
    obtain ⟨delta, b1, b2, b3, b4, b5⟩ :=
      buildDayPlaces_spec pool hkeys dd.dayNumber dd.places [] used
    have hD1 : (buildDayPlaces pool dd.dayNumber dd.places ([], used)).1 = delta := by
      rw [b1]
      rfl
    have hfresh : ∀ e ∈ result, e.1 ≠ dd.dayNumber :=
      fun e he => hdisj dd (List.mem_cons_self dd rest) e he
    have hstep : buildGo pool (dd :: rest) (result, used) =
        buildGo pool rest (result ++ [(dd.dayNumber, delta)],
          used ++ delta.map (fun q => q.placeId)) := by
      rw [buildGo_cons]
      show buildGo pool rest
          (dictSet result dd.dayNumber
              (buildDayPlaces pool dd.dayNumber dd.places ([], used)).1,
            (buildDayPlaces pool dd.dayNumber dd.places ([], used)).2) = _
      rw [hD1, b2, dictSet_fresh result dd.dayNumber delta hfresh]
    rw [List.map_cons] at hnd
    have hnd2 := List.nodup_cons.mp hnd
    have hdisj' : ∀ dd' ∈ rest, ∀ e ∈ result ++ [(dd.dayNumber, delta)],
        e.1 ≠ dd'.dayNumber := by
      intro dd' hdd' e he
      rcases List.mem_append.mp he with he' | he'
      · exact hdisj dd' (List.mem_cons_of_mem dd hdd') e he'
      · rw [List.mem_singleton] at he'
        subst he'
        intro hc
        have hc' : dd.dayNumber = dd'.dayNumber := hc
        apply hnd2.1
        rw [hc']
        exact List.mem_map_of_mem DraftDay.dayNumber hdd'
    obtain ⟨newE, g1, g2, g3, g4, g5, g6, g7⟩ :=
      ih (result ++ [(dd.dayNumber, delta)])
        (used ++ delta.map (fun q => q.placeId)) hdisj' hnd2.2
    have hall : allPlaceIds ((dd.dayNumber, delta) :: newE) =
        delta.map (fun q => q.placeId) ++ allPlaceIds newE := by
      simp [allPlaceIds, entryIds]
    refine ⟨(dd.dayNumber, delta) :: newE, ?_, ?_, ?_, ?_, ?_, ?_, ?_⟩
    · rw [hstep, g1, List.append_assoc, List.singleton_append]
    · rw [hstep, g2, hall, List.append_assoc]
    · rw [List.map_cons, g3, List.map_cons]
    · rw [hall]
      refine List.Nodup.append b4 g4 ?_
      intro a ha hb
      exact g5 a hb (List.mem_append_right used ha)
    · intro k hk
      rw [hall] at hk
      rcases List.mem_append.mp hk with h | h
      · obtain ⟨q, hq, hqe⟩ := List.mem_map.mp h
        obtain ⟨_, hnu, _⟩ := b3 q hq
        intro hc
        apply hnu
        rw [hqe]
        exact hc
      · intro hc
        exact g5 k h (List.mem_append_left _ hc)
    · intro e he
      rcases List.mem_cons.mp he with rfl | he'
      · refine ⟨dd, List.mem_cons_self dd rest, rfl, ?_⟩
        intro q hq
        obtain ⟨hs, _, hin⟩ := b3 q hq
        exact ⟨hs, hin⟩
      · obtain ⟨dd', hdd', heq, hrest⟩ := g6 e he'
        exact ⟨dd', List.mem_cons_of_mem dd hdd', heq, hrest⟩
    · intro dd' hdd' pd hpd hsome
      rw [hall]
      rcases List.mem_cons.mp hdd' with rfl | hdd''
      · have hcov := b5 pd hpd hsome
        rw [b2] at hcov
        rcases List.mem_append.mp hcov with h | h
        · exact List.mem_append_left _ h
        · exact List.mem_append_right _ (List.mem_append_left _ h)
      · have hcov := g7 dd' hdd'' pd hpd hsome
        rw [List.append_assoc] at hcov
        exact hcov

/-- C7: across all days of the dict produced by `_build_places_by_day`, each
place id appears at most once; every kept place comes from the scored pool
(ids missing from the pool are dropped); and for an id repeated across days
its first occurrence is the one that is kept: if a draft day `dd` mentions a
pool id that no earlier day mentions, the output entry for `dd` contains a
place with that id. -/
theorem c7_build_places_by_day (draft : Draft) (pool : List (Nat × Place))
    (hkeys : ∀ e ∈ pool, e.2.placeId = e.1)
    (hdays : (draft.days.map DraftDay.dayNumber).Nodup) :
    (allPlaceIds (buildPlacesByDay draft pool)).Nodup ∧
    (∀ e ∈ buildPlacesByDay draft pool, ∀ q ∈ e.2,
      (dictLookup pool q.placeId).isSome = true) ∧
    ∀ pre dd post, draft.days = pre ++ dd :: post →
      ∀ pd ∈ dd.places, (dictLookup pool pd.placeId).isSome = true →
      (∀ d ∈ pre, ∀ pd' ∈ d.places, pd'.placeId ≠ pd.placeId) →
      ∃ L, (dd.dayNumber, L) ∈ buildPlacesByDay draft pool ∧
        ∃ q ∈ L, q.placeId = pd.placeId := by
  obtain ⟨newE, g1, g2, g3, g4, g5, g6, g7⟩ :=
    buildGo_spec pool hkeys draft.days [] []
      (fun dd _ e he => absurd he (List.not_mem_nil e)) hdays
  have hmain : buildPlacesByDay draft pool = newE := by
    rw [buildPlacesByDay, g1]
    rfl
  refine ⟨?_, ?_, ?_⟩
  · rw [hmain]
    exact g4
  · rw [hmain]
    intro e he q hq
    obtain ⟨dd, _, _, hprov⟩ := g6 e he
    exact (hprov q hq).1
  · intro pre dd post hsplit pd hpd hsome hfirst
    have hdays' := hdays
    rw [hsplit, List.map_append, List.map_cons] at hdays'
    obtain ⟨hndpre, hndcons, hdisjmap⟩ := List.nodup_append.mp hdays'
    have hcons := List.nodup_cons.mp hndcons
    obtain ⟨preE, p1, p2, p3, p4, p5, p6, p7⟩ :=
      buildGo_spec pool hkeys pre [] []
        (fun _ _ e he => absurd he (List.not_mem_nil e)) hndpre
    have hR : (buildGo pool pre ([], [])).1 = preE := by
      rw [p1]
      rfl
    have hU : (buildGo pool pre ([], [])).2 = allPlaceIds preE := by
      rw [p2]
      rfl
    have hknotU : pd.placeId ∉ allPlaceIds preE := by
      intro hk
      rw [allPlaceIds] at hk
      obtain ⟨e, he, hke⟩ := List.mem_flatMap.mp hk
      rw [entryIds] at hke
      obtain ⟨d, hd, _, hprov⟩ := p6 e he
      obtain ⟨q, hq, hqe⟩ := List.mem_map.mp hke
      obtain ⟨pd', hpd', hpe⟩ := List.mem_map.mp (hprov q hq).2
      apply hfirst d hd pd' hpd'
      rw [hpe, hqe]
    obtain ⟨delta, b1, b2, b3, b4, b5⟩ :=
      buildDayPlaces_spec pool hkeys dd.dayNumber dd.places []
        (buildGo pool pre ([], [])).2
    have hD1 : (buildDayPlaces pool dd.dayNumber dd.places
        ([], (buildGo pool pre ([], [])).2)).1 = delta := by
      rw [b1]
      rfl
    have hkin : pd.placeId ∈ delta.map (fun q => q.placeId) := by
      have h := b5 pd hpd hsome
      rw [b2] at h
      rcases List.mem_append.mp h with h | h
      · rw [hU] at h
        exact absurd h hknotU
      · exact h
    obtain ⟨q, hq, hqk⟩ := List.mem_map.mp hkin
    have hfresh : ∀ e ∈ (buildGo pool pre ([], [])).1, e.1 ≠ dd.dayNumber := by
      intro e he hc
      rw [hR] at he
      have hkey : e.1 ∈ pre.map DraftDay.dayNumber := by
        rw [← p3]
        exact List.mem_map_of_mem Prod.fst he
      apply hdisjmap hkey
      rw [hc]
      exact List.mem_cons_self _ _
    have hsteps : buildPlacesByDay draft pool =
        (buildGo pool post
          ((buildGo pool pre ([], [])).1 ++ [(dd.dayNumber, delta)],
            (buildDayPlaces pool dd.dayNumber dd.places
              ([], (buildGo pool pre ([], [])).2)).2)).1 := by
      rw [buildPlacesByDay, hsplit, buildGo_append, buildGo_cons, hD1,
        dictSet_fresh _ _ _ hfresh]
    have hdisjpost : ∀ dd' ∈ post,
        ∀ e ∈ (buildGo pool pre ([], [])).1 ++ [(dd.dayNumber, delta)],
          e.1 ≠ dd'.dayNumber := by
      intro dd' hdd' e he hc
      rcases List.mem_append.mp he with he' | he'
      · rw [hR] at he'
        have hkey : e.1 ∈ pre.map DraftDay.dayNumber := by
          rw [← p3]
          exact List.mem_map_of_mem Prod.fst he'
        apply hdisjmap hkey
        rw [hc]
        exact List.mem_cons_of_mem _ (List.mem_map_of_mem DraftDay.dayNumber hdd')
      · rw [List.mem_singleton] at he'
        subst he'
        have hc' : dd.dayNumber = dd'.dayNumber := hc
        apply hcons.1
        rw [hc']
        exact List.mem_map_of_mem DraftDay.dayNumber hdd'
    obtain ⟨postE, q1, _, _, _, _, _, _⟩ :=
      buildGo_spec pool hkeys post
        ((buildGo pool pre ([], [])).1 ++ [(dd.dayNumber, delta)])
        ((buildDayPlaces pool dd.dayNumber dd.places
          ([], (buildGo pool pre ([], [])).2)).2)
        hdisjpost hcons.2
    refine ⟨delta, ?_, ⟨q, hq, hqk⟩⟩
    rw [hsteps, q1]
    exact List.mem_append_left _
      (List.mem_append_right _ (List.mem_singleton_self _))

def c7p (i : Nat) : Place :=
  { basePlace with placeId := i }

def c7pool : List (Nat × Place) := [(1, c7p 1), (2, c7p 2)]

def c7dp (i : Nat) : DraftPlace := ⟨i, none, none, none, none⟩

def c7draft : Draft :=
  ⟨[⟨1, [c7dp 1, c7dp 2, c7dp 9]⟩, ⟨2, [c7dp 2]⟩]⟩

theorem c7_build_places_by_day_witness :
    (∀ e ∈ c7pool, e.2.placeId = e.1) ∧
    ((c7draft.days.map DraftDay.dayNumber).Nodup) ∧
    ((allPlaceIds (buildPlacesByDay c7draft c7pool)).Nodup ∧
      (∀ e ∈ buildPlacesByDay c7draft c7pool, ∀ q ∈ e.2,
        (dictLookup c7pool q.placeId).isSome = true) ∧
      ∀ pre dd post, c7draft.days = pre ++ dd :: post →
        ∀ pd ∈ dd.places, (dictLookup c7pool pd.placeId).isSome = true →
        (∀ d ∈ pre, ∀ pd' ∈ d.places, pd'.placeId ≠ pd.placeId) →
        ∃ L, (dd.dayNumber, L) ∈ buildPlacesByDay c7draft c7pool ∧
          ∃ q ∈ L, q.placeId = pd.placeId) :=
  ⟨by decide, by decide,
    c7_build_places_by_day c7draft c7pool (by decide) (by decide)⟩

end Capstone2
